import Mathlib

/-!
Verification development for the `blockblog` static-site generator.

The definitions below are a shallow embedding of the final iteration of the
block interpreter (`src/data/block_builder.rs`) and the color model
(`src/data/colors.rs`).  External collaborators (the `glob` crate, the
`markdown` crate) are modelled as oracle functions carried in the
interpreter environment; file/IO-free rendering is modelled as explicit
state passing.  Recursion through `Include` resolution is unbounded in the
source (cyclic includes recurse until resource exhaustion), so the
interpreter is indexed by a fuel parameter; running out of fuel is a
distinguished error that never occurs for well-founded block graphs.
-/

namespace Blockblog

/-! ## Character classes

`[[:word:]]` in the `regex` crate is the ASCII class `[0-9A-Za-z_]`;
`Char.isAlphanum` is exactly ASCII alphanumeric. -/

/-- ASCII word character, as matched by `[[:word:]]` in the `regex` crate. -/
def isWordChar (c : Char) : Bool :=
  c.isAlphanum || c = '_'

/-- Hexadecimal digit, as accepted by `u32::from_str_radix(_, 16)`. -/
def isHexDigit (c : Char) : Bool :=
  c.isDigit || ('a' ≤ c && c ≤ 'f') || ('A' ≤ c && c ≤ 'F')

/-- Numeric value of a hexadecimal digit (0 for non-digits). -/
def hexVal (c : Char) : Nat :=
  if c.isDigit then c.toNat - '0'.toNat
  else if 'a' ≤ c && c ≤ 'f' then c.toNat - 'a'.toNat + 10
  else if 'A' ≤ c && c ≤ 'F' then c.toNat - 'A'.toNat + 10
  else 0

/-- UTF-8 byte length of a character list; models Rust's `str::len`,
which counts bytes, not characters. -/
def utf8_len (cs : List Char) : Nat :=
  cs.foldl (fun n c => n + c.utf8Size) 0

/-! ## Path helpers

Models of `std::path::Path::file_name` and `Path::file_stem` for Unix-style
paths, used by `BlockBuilder::loop_value_filename` and
`BlockBuilder::for_each_file`. -/

/-- Splits a character list at a separator; mirrors `String.splitOn` for a
one-character separator. -/
def splitOnChar (sep : Char) : List Char → List (List Char)
  | [] => [[]]
  | c :: rest =>
    match splitOnChar sep rest with
    | [] => [[c]]
    | g :: gs => if c = sep then [] :: g :: gs else (c :: g) :: gs

/-- Model of `Path::file_name`: the last path component (components are the
slash-separated pieces with empty and `.` pieces dropped); `none` when there
is no component or the last one is `..`. -/
def pathFileName (s : String) : Option String :=
  let comps := (splitOnChar '/' s.data).map (fun l => (⟨l⟩ : String))
  let comps := comps.filter (fun c => c ≠ "" && c ≠ ".")
  match comps.getLast? with
  | none => none
  | some last => if last = ".." then none else some last

/-- Stem of a bare file name: the portion before the last `.`, except that a
name whose only `.` is leading (like `.gitignore`) is returned whole.
Mirrors `Path::file_stem` applied to a file name. -/
def stemOf (name : String) : String :=
  let r := name.data.reverse
  if r.contains '.' then
    let before := (r.dropWhile (fun c => c ≠ '.')).tail
    if before = [] then name else ⟨before.reverse⟩
  else name

/-- Model of `Path::file_stem`. -/
def pathFileStem (s : String) : Option String :=
  (pathFileName s).map stemOf

/-! ## Literal replace-all

Model of Rust `String::replace` for a non-empty needle: non-overlapping,
leftmost-first.  The recursion is driven by a fuel equal to the input length
so that the function is structurally recursive (each step consumes at least
one character when the needle is non-empty). -/

/-- One left-to-right pass of literal replacement, fuel-indexed. -/
def strReplaceGo (pat rep : List Char) : Nat → List Char → List Char
  | 0, cs => cs
  | _fuel + 1, [] => []
  | fuel + 1, c :: rest =>
    if pat ≠ [] && pat.isPrefixOf (c :: rest) then
      rep ++ strReplaceGo pat rep fuel ((c :: rest).drop pat.length)
    else
      c :: strReplaceGo pat rep fuel rest

/-- Model of `str::replace(pat, to)` for the non-empty literal patterns used
by `BlockBuilder::process_special_values`. -/
def strReplaceAll (pat rep cs : List Char) : List Char :=
  strReplaceGo pat rep cs.length cs

/-! ## The special-value regular expressions

`BlockBuilder::process_special_values` uses
`([^\\]|^)(\$loop_value)([[:^word:]]|$)` (and the `_filename` analogue) with
`Regex::replace_all`.  The model below reproduces the `regex` crate's
leftmost-first, non-overlapping semantics for this fixed pattern shape:
group 1 prefers consuming one non-backslash character over the empty `^`
anchor, group 3 prefers consuming one non-word character over the empty `$`
anchor, and the replacement re-emits groups 1 and 3 around the replacement
text `repl`. -/

/-- Try to match the pattern at the current position.  Returns the number of
characters consumed and the text the match is rewritten to. -/
def tryMatchAt (ph repl : List Char) (atStart : Bool) (cs : List Char) :
    Option (Nat × List Char) :=
  (match cs with
   | c :: rest =>
     if c ≠ '\\' && ph.isPrefixOf rest then
       match rest.drop ph.length with
       | [] => some (1 + ph.length, c :: repl)
       | d :: _ =>
         if !isWordChar d then some (1 + ph.length + 1, c :: (repl ++ [d]))
         else none
     else none
   | [] => none)
  <|>
  (if atStart && ph.isPrefixOf cs then
     match cs.drop ph.length with
     | [] => some (ph.length, repl)
     | d :: _ =>
       if !isWordChar d then some (ph.length + 1, repl ++ [d])
       else none
   else none)

/-- Fuel-indexed scan of `Regex::replace_all` for the pattern above; a match
consumes at least one character, so fuel `cs.length` always suffices. -/
def goReplace (ph repl : List Char) : Nat → Bool → List Char → List Char
  | 0, _, cs => cs
  | fuel + 1, atStart, cs =>
    match tryMatchAt ph repl atStart cs with
    | some (n, out) => out ++ goReplace ph repl fuel false (cs.drop n)
    | none =>
      match cs with
      | [] => []
      | c :: rest => c :: goReplace ph repl fuel false rest

/-- Model of `Regex::replace_all` for `([^\\]|^)(ph)([[:^word:]]|$)` with
replacement `caps[1] ++ repl ++ caps[3]`. -/
def replaceAllBoundary (ph repl cs : List Char) : List Char :=
  goReplace ph repl cs.length true cs

/-! ## Color model (`src/data/colors.rs`) -/

/-- An RGB color.  Channels are `u8` in the source; they are modelled as
naturals that are `< 256` whenever produced by the parser. -/
structure Color where
  r : Nat
  g : Nat
  b : Nat
deriving DecidableEq, Repr

/-- Strips the optional leading `+` sign accepted by
`u32::from_str_radix`. -/
def strip_plus (cs : List Char) : List Char :=
  match cs with
  | '+' :: rest => rest
  | _ => cs

/-- Model of `u32::from_str_radix(s, 16)`: an optional leading `+`, then one
or more hexadecimal digits; errors on any other character, on an empty digit
string, and on overflow past `u32::MAX` (overflow of the step-by-step
checked arithmetic is equivalent to a final-value check since the
accumulator grows monotonically). -/
def u32_from_str_radix (cs : List Char) : Option Nat :=
  let digits := strip_plus cs
  if digits = [] then none
  else if digits.all isHexDigit then
    let v := digits.foldl (fun acc c => acc * 16 + hexVal c) 0
    if v < 4294967296 then some v else none
  else none

/-- Model of `Color::from_str` (`colors.rs` lines 85–109).  `s.len()` in the
source is the UTF-8 byte length, hence `utf8_len`; after two `>>= 8` shifts
the source computes `b = v & 0xff`, `g = v & 0xff`, `r = v as u8`, modelled
with `/` and `% 256`. -/
def colorFromChars (cs : List Char) : Option Color :=
  let chars :=
    if ['0', 'x'].isPrefixOf cs && utf8_len cs = 8 then some (cs.drop 2)
    else if ['#'].isPrefixOf cs && utf8_len cs = 7 then some (cs.drop 1)
    else none
  match chars with
  | none => none
  | some t =>
    match u32_from_str_radix t with
    | some v => some { r := v / 65536 % 256, g := v / 256 % 256, b := v % 256 }
    | none => none

/-- Runs `Color::from_str` on a Lean string. -/
def Color.fromStr (s : String) : Option Color :=
  colorFromChars s.data

/-- Two-lowercase-hex-digit rendering of a channel; models `{:02x}` for
values below 256. -/
def u8Hex (n : Nat) : List Char :=
  [Nat.digitChar (n / 16), Nat.digitChar (n % 16)]

/-- Model of the `Display` implementation for `Color`
(`colors.rs` lines 111–115): `#rrggbb`, lowercase. -/
def Color.toString (c : Color) : String :=
  ⟨'#' :: (u8Hex c.r ++ u8Hex c.g ++ u8Hex c.b)⟩

/-- A `{normal, hover}` pair of colors.  In the final iteration consumed by
`BlockBuilder::link` the hover color is optional (`if let Some(hover) =
&color.hover`). -/
structure LinkColor where
  normal : Color
  hover : Option Color
deriving DecidableEq, Repr

/-! ## Block schema (`src/data/blocks.rs`, final iteration)

The `LinkStyle` and `BlockItem` enums.  `Html` and `Head` belong to the
final iteration of the schema consumed by `BlockBuilder::html` (the
`blocks.rs` snapshot in the repository predates them); their fields are
exactly the ones `BlockBuilder::html` reads: `head.title`, `head.icon`,
`head.styles`, `head.scripts`, all optional. -/

/-- The `LinkStyle` enum (`blocks.rs`). -/
inductive LinkStyle where
  | Explicit (underline : Bool) (color : LinkColor) (visited_color : Option LinkColor)
  | Style (style : String)
deriving DecidableEq, Repr

/-- Document head metadata consumed by `BlockBuilder::html`. -/
structure Head where
  title : Option String := none
  icon : Option String := none
  styles : Option (List String) := none
  scripts : Option (List String) := none

/-- The `BlockItem` enum (`blocks.rs`), the AST node type.  Field order matches the
source declarations (`ForEach` declares `pattern` before `values`). -/
inductive BlockItem where
  | Include (name : String)
  | IncludeVerbose (path : String) (params : Option (List String))
  | Title (text : String)
  | Block (style : Option String) (html_type : Option String) (items : List BlockItem)
  | Markdown (source : String)
  | Code (source : String)
  | Image (path : String) (alt : Option String)
  | Text (raw : String)
  | Link (text : String) (url : String) (link_style : LinkStyle)
  | Br
  | ForEach (pattern : Option String) (values : Option (List String)) (items : List BlockItem)
  | LoopValue
  | LoopValueFileName
  | Html (head : Option Head) (body : Option (List BlockItem))

/-! ## Interpreter environment and state (`src/data/block_builder.rs`) -/

/-- The immutable part of a `BlockBuilder` for one render run: the
`BlockBuilderConfig` fields the interpreter reads, the loaded block
namespace, and oracles for the two external crates the interpreter calls
(`markdown::to_html` and `glob::glob_with`; the latter is given the full
pattern string and returns the matched entry paths in enumeration order). -/
structure BuilderEnv where
  input_dir : String
  indent_string : String
  debug : Bool
  block_items : List (String × BlockItem)
  md_to_html : String → String := fun s => s
  glob : String → List String := fun _ => []

/-- The mutable interpreter state of a `BlockBuilder`.  `generated_styles`
is a `HashMap<String, HashMap<String, String>>` in the source; both maps are
modelled as association lists with overwriting insert (content-equal to the
hash maps). -/
structure BuilderState where
  indent_level : Nat := 0
  current_file : String := ""
  current_loop_value : String := ""
  generated_styles : List (String × List (String × String)) := []
deriving DecidableEq, Repr

/-- Overwriting insert, modelling `HashMap::insert`: replaces the value of
an existing key, otherwise appends the binding. -/
def mapInsert {α : Type} (m : List (String × α)) (k : String) (v : α) :
    List (String × α) :=
  if m.any (fun p => p.1 = k) then
    m.map (fun p => if p.1 = k then (k, v) else p)
  else m ++ [(k, v)]

/-- Lookup in the association-list model of a `HashMap`. -/
def mapLookup {α : Type} (m : List (String × α)) (k : String) : Option α :=
  match m.find? (fun p => p.1 = k) with
  | some p => some p.2
  | none => none

/-- Errors raised by the interpreter (`io::ErrorKind` plus message in the
source), together with the fuel-exhaustion marker of this model. -/
inductive RenderError where
  | notFound (msg : String)
  | invalidInput (msg : String)
  | outOfFuel
deriving DecidableEq, Repr

deriving instance DecidableEq for Except

/-- Model of `BlockBuilder::get_indent`: the indent string repeated
`indent_level` times. -/
def get_indent (env : BuilderEnv) (st : BuilderState) : String :=
  String.join (List.replicate st.indent_level env.indent_string)

/-- Model of `BlockBuilder::title`. -/
def title (t : String) : String :=
  "<h1>" ++ t ++ "</h1>"

/-- Model of `BlockBuilder::markdown`, via the `markdown::to_html` oracle. -/
def markdown (env : BuilderEnv) (source : String) : String :=
  env.md_to_html source

/-- Model of `BlockBuilder::code`. -/
def code (c : String) : String :=
  "<pre><code>\n" ++ c ++ "\n</code></pre>"

/-- Model of `BlockBuilder::image`; a missing alt renders as the empty string. -/
def image (path : String) (alt : Option String) : String :=
  "<img src=\"" ++ path ++ "\" alt=\"" ++ alt.getD "" ++ "\" />"

/-- Model of `BlockBuilder::text`. -/
def text (t : String) : String := t

/-- Model of `BlockBuilder::br`. -/
def br : String := "<br />"

/-- Model of `BlockBuilder::loop_value`. -/
def loop_value (st : BuilderState) : String :=
  st.current_loop_value

/-- Model of `BlockBuilder::loop_value_filename`:
`Path::new(&value).file_stem().unwrap_or("")`. -/
def loop_value_filename (st : BuilderState) : String :=
  (pathFileStem st.current_loop_value).getD ""

/-- Model of `BlockBuilder::process_special_values` (lines 540–567): the
`$loop_value_filename` regex pass, its escape strip, the `$loop_value` regex
pass, its escape strip.  `loop_value_filename().ok()` is always `Some` in
the source, so the filename pass always runs. -/
def process_special_values (st : BuilderState) (value : String) : String :=
  let cached_filename := loop_value_filename st
  let cached_loop_value := loop_value st
  let s := replaceAllBoundary "$loop_value_filename".data cached_filename.data value.data
  let s := strReplaceAll "\\$loop_value_filename".data "$loop_value_filename".data s
  let s := replaceAllBoundary "$loop_value".data cached_loop_value.data s
  let s := strReplaceAll "\\$loop_value".data "$loop_value".data s
  ⟨s⟩

/-! ### Link rendering (`BlockBuilder::link`, lines 404–467)

The declaration-set builders are factored out of the body of `link` so that
theorems can name them; each corresponds to the `HashMap` the source builds
inline. -/

/-- The `:link` declaration set: `color: normal`, plus
`text-decoration: underline` iff the underline flag is set. -/
def link_normal_style (underline : Bool) (color : LinkColor) :
    List (String × String) :=
  let m := mapInsert [] "color" color.normal.toString
  if underline then mapInsert m "text-decoration" "underline" else m

/-- The `:hover` (and `:active`) declaration set: `color` is the hover color
or the normal color when hover is absent; `text-decoration: underline`
always. -/
def link_hover_style (color : LinkColor) : List (String × String) :=
  let m := mapInsert [] "color"
    (match color.hover with
     | some hover => hover.toString
     | none => color.normal.toString)
  mapInsert m "text-decoration" "underline"

/-- The `:visited` declaration set: the `:link` set with `color` overridden
to `visited_color.normal` when present. -/
def link_visited_style (underline : Bool) (color : LinkColor)
    (visited_color : Option LinkColor) : List (String × String) :=
  match visited_color with
  | some what => mapInsert (link_normal_style underline color) "color" what.normal.toString
  | none => link_normal_style underline color

/-- The generated class name:
`link-{normal hex without leading #}-{underline|none}`. -/
def link_class (color : LinkColor) (underline : Bool) : String :=
  "link-" ++ (⟨color.normal.toString.data.dropWhile (· = '#')⟩ : String) ++ "-"
    ++ (if underline then "underline" else "none")

/-- Model of `BlockBuilder::link`: renders the anchor and, for `Explicit` styles,
inserts the four declaration sets into `generated_styles` under
`{class}:{pseudo}` keys. -/
def link (st : BuilderState) (t url : String) (link_style : LinkStyle) :
    String × BuilderState :=
  match link_style with
  | .Explicit underline color visited_color =>
    let normal_style := link_normal_style underline color
    let hover_style := link_hover_style color
    let visited_style := link_visited_style underline color visited_color
    let cls := link_class color underline
    let gs := mapInsert st.generated_styles (cls ++ ":link") normal_style
    let gs := mapInsert gs (cls ++ ":visited") visited_style
    let gs := mapInsert gs (cls ++ ":hover") hover_style
    let gs := mapInsert gs (cls ++ ":active") hover_style
    ("<a href=\"" ++ url ++ "\" class=\"" ++ cls ++ "\">" ++ t ++ "</a>",
     { st with generated_styles := gs })
  | .Style style =>
    ("<a href=\"" ++ url ++ "\" class=\"" ++ style ++ "\">" ++ t ++ "</a>", st)

/-! ## The recursive interpreter

The mutually recursive `BlockBuilder` methods are expressed as one
fuel-indexed function over a call descriptor, so that the whole interpreter
is structurally recursive on the fuel and evaluates by kernel reduction.
Each `Call` constructor corresponds to one source method; the named wrapper
definitions below restore the source names. -/

/-- One pending interpreter call: the recursive `BlockBuilder` methods plus
the two `for` loops they contain (`items` iteration inside
`construct_block`/`block`/`html`, entry iteration inside `for_each_file`). -/
inductive Call where
  | constructByName (block_name : String)
  | constructBlock (item : BlockItem)
  | constructItems (items : List BlockItem)
  | includeCall (included_block_name : String)
  | includeVerboseCall (included_block_name : String) (params : Option (List String))
  | blockCall (style : Option String) (html_type : Option String) (items : List BlockItem)
  | htmlCall (head : Option Head) (body : Option (List BlockItem))
  | forEachCall (values : List String) (items : List BlockItem)
  | forEachFileCall (pattern : String) (items : List BlockItem)
  | forEachEntries (entries : List String) (items : List BlockItem)

/-- The interpreter.  Every recursive call runs at one fuel less; with fuel
`0` the run aborts with `outOfFuel`.  On an error the state reached so far
is returned unchanged, mirroring `&mut self` with `?` early returns. -/
def run (env : BuilderEnv) : Nat → Call → BuilderState →
    Except RenderError String × BuilderState
  | 0, _, st => (.error .outOfFuel, st)
  | fuel + 1, call, st =>
    match call with
    | .constructByName block_name =>
      -- `construct_by_name` (lines 44–57): look up, clone, construct.
      match mapLookup env.block_items block_name with
      | none => (.error (.notFound ("Block " ++ block_name ++ " not found")), st)
      | some block => run env fuel (.constructBlock block) st
    | .constructBlock item =>
      -- `construct_block` (lines 59–158): dispatch, then `output.push('\n')`.
      let res : Except RenderError String × BuilderState :=
        match item with
        | .Include name =>
          let name := process_special_values st name
          run env fuel (.includeCall name) st
        | .Title t =>
          let t := process_special_values st t
          (.ok (get_indent env st ++ title t), st)
        | .Block style html_type items =>
          run env fuel (.blockCall style html_type items) st
        | .Markdown md_file =>
          let md_file := process_special_values st md_file
          (.ok (get_indent env st ++ markdown env md_file), st)
        | .Code code_file =>
          let code_file := process_special_values st code_file
          (.ok (get_indent env st ++ code code_file), st)
        | .Image path alt =>
          let path := process_special_values st path
          (.ok (get_indent env st ++ image path alt), st)
        | .Text raw_text =>
          let raw_text := process_special_values st raw_text
          (.ok (get_indent env st ++ text raw_text), st)
        | .Link t url link_style =>
          let t := process_special_values st t
          let (s, st') := link st t url link_style
          (.ok (get_indent env st ++ s), st')
        | .Br => (.ok (get_indent env st ++ br), st)
        | .IncludeVerbose path params =>
          let path := process_special_values st path
          match run env fuel (.includeVerboseCall path params) st with
          | (.ok s, st') => (.ok (get_indent env st ++ s), st')
          | (.error e, st') => (.error e, st')
        | .ForEach pattern values items =>
          if values.isSome && pattern.isSome then
            (.error (.invalidInput "ForEach: values and pattern are both set"), st)
          else
            let step1 : Except RenderError String × BuilderState :=
              match values with
              | some what => run env fuel (.forEachCall what items) st
              | none => (.ok "", st)
            match step1 with
            | (.error e, st1) => (.error e, st1)
            | (.ok out1, st1) =>
              match pattern with
              | some what =>
                match run env fuel (.forEachFileCall what items) st1 with
                | (.ok out2, st2) => (.ok (out1 ++ out2), st2)
                | (.error e, st2) => (.error e, st2)
              | none => (.ok (out1 ++ ""), st1)
        | .LoopValue => (.ok (get_indent env st ++ loop_value st), st)
        | .LoopValueFileName => (.ok (get_indent env st ++ loop_value_filename st), st)
        | .Html head body => run env fuel (.htmlCall head body) st
      match res with
      | (.ok output, st') => (.ok (output ++ "\n"), st')
      | (.error e, st') => (.error e, st')
    | .constructItems items =>
      -- the `for item in items { output.push_str(&self.construct_block(item)?) }` loops.
      match items with
      | [] => (.ok "", st)
      | item :: rest =>
        match run env fuel (.constructBlock item) st with
        | (.ok s, st') =>
          match run env fuel (.constructItems rest) st' with
          | (.ok s2, st'') => (.ok (s ++ s2), st'')
          | (.error e, st'') => (.error e, st'')
        | (.error e, st') => (.error e, st')
    | .includeCall included_block_name =>
      -- `include` (lines 282–308): save `current_file`, rebind, render,
      -- restore on the success path only (`?` skips the restore).
      match mapLookup env.block_items included_block_name with
      | some _ =>
        let dbg := if env.debug then
            get_indent env st ++ "<!-- Including block " ++ included_block_name ++ " -->\n"
          else ""
        let old_file := st.current_file
        let st := { st with current_file := included_block_name }
        match run env fuel (.constructByName included_block_name) st with
        | (.ok s, st') => (.ok (dbg ++ s), { st' with current_file := old_file })
        | (.error e, st') => (.error e, st')
      | none =>
        (.error (.notFound ("Block " ++ included_block_name ++ " not found")), st)
    | .includeVerboseCall included_block_name _params =>
      -- `include_verbose` (lines 310–340): identical to `include`;
      -- `params` is accepted but unused.
      match mapLookup env.block_items included_block_name with
      | some _ =>
        let dbg := if env.debug then
            get_indent env st ++ "<!-- Including block " ++ included_block_name ++ " -->\n"
          else ""
        let old_file := st.current_file
        let st := { st with current_file := included_block_name }
        match run env fuel (.constructByName included_block_name) st with
        | (.ok s, st') => (.ok (dbg ++ s), { st' with current_file := old_file })
        | (.error e, st') => (.error e, st')
      | none =>
        (.error (.notFound ("Block " ++ included_block_name ++ " not found")), st)
    | .blockCall style html_type items =>
      -- `block` (lines 346–381): open tag, indent++, children, indent--,
      -- close tag; on a child error the decrement is skipped.
      let html_type := match html_type with
        | some what => what
        | none => "div"
      let opening := get_indent env st ++
        (match style with
         | some style => "<" ++ html_type ++ " class=\"" ++ style ++ "\">"
         | none => "<" ++ html_type ++ ">") ++ "\n"
      let st := { st with indent_level := st.indent_level + 1 }
      match run env fuel (.constructItems items) st with
      | (.ok body, st') =>
        let st' := { st' with indent_level := st'.indent_level - 1 }
        (.ok (opening ++ body ++ get_indent env st' ++ "</" ++ html_type ++ ">"), st')
      | (.error e, st') => (.error e, st')
    | .htmlCall head body =>
      -- `html` (lines 216–280).
      let output := "<!DOCTYPE html>\n<html>\n"
      let st := { st with indent_level := st.indent_level + 1 }
      let output := output ++ get_indent env st ++ "<head>\n"
      let st := { st with indent_level := st.indent_level + 1 }
      let output := output ++ get_indent env st ++ "<meta charset=\"utf-8\">\n"
      let output := output ++
        (match head with
         | some head =>
           (match head.title with
            | some t => get_indent env st ++ "<title>" ++ t ++ "</title>\n"
            | none => "") ++
           (match head.icon with
            | some icon => get_indent env st ++
                "<link rel=\"icon\" href=\"" ++ icon ++ "\" type=\"image/x-icon\" />\n"
            | none => "") ++
           (match head.styles with
            | some styles => String.join (styles.map (fun s =>
                get_indent env st ++ "<link rel=\"stylesheet\" href=\"" ++ s ++ "\" />\n"))
            | none => "") ++
           (match head.scripts with
            | some scripts => String.join (scripts.map (fun s =>
                get_indent env st ++ "<script src=\"" ++ s ++ "\" />\n"))
            | none => "")
         | none => "")
      let st := { st with indent_level := st.indent_level - 1 }
      let output := output ++ get_indent env st ++ "</head>\n"
        ++ get_indent env st ++ "<body>\n"
      let st := { st with indent_level := st.indent_level + 1 }
      let bodyRes : Except RenderError String × BuilderState :=
        match body with
        | some items => run env fuel (.constructItems items) st
        | none => (.ok "", st)
      match bodyRes with
      | (.ok bodyOut, st') =>
        let st' := { st' with indent_level := st'.indent_level - 1 }
        let output := output ++ bodyOut ++ get_indent env st' ++ "</body>\n"
        let st' := { st' with indent_level := st'.indent_level - 1 }
        (.ok (output ++ "</html>\n"), st')
      | (.error e, st') => (.error e, st')
    | .forEachCall values items =>
      -- `for_each` (lines 481–493): bind `current_loop_value`, render the
      -- child items, continue with the remaining values.
      match values with
      | [] => (.ok "", st)
      | value :: rest =>
        let st := { st with current_loop_value := value }
        match run env fuel (.constructItems items) st with
        | (.ok s, st') =>
          match run env fuel (.forEachCall rest items) st' with
          | (.ok s2, st'') => (.ok (s ++ s2), st'')
          | (.error e, st'') => (.error e, st'')
        | (.error e, st') => (.error e, st')
    | .forEachFileCall pattern items =>
      -- `for_each_file` (lines 495–521): prefix the pattern with the input
      -- directory, enumerate matches via the glob oracle, iterate.
      let pattern := env.input_dir ++ "/" ++ pattern
      let files := env.glob pattern
      run env fuel (.forEachEntries files items) st
    | .forEachEntries entries items =>
      -- the entry loop of `for_each_file`: bind `current_file` and
      -- `current_loop_value` to the entry's file name, render the items.
      match entries with
      | [] => (.ok "", st)
      | entry :: rest =>
        let file_name := (pathFileName entry).getD ""
        let st := { st with current_file := file_name,
                            current_loop_value := file_name }
        match run env fuel (.constructItems items) st with
        | (.ok s, st') =>
          match run env fuel (.forEachEntries rest items) st' with
          | (.ok s2, st'') => (.ok (s ++ s2), st'')
          | (.error e, st'') => (.error e, st'')
        | (.error e, st') => (.error e, st')

/-- Named wrapper for `BlockBuilder::construct_by_name`. -/
def construct_by_name (env : BuilderEnv) (fuel : Nat) (block_name : String)
    (st : BuilderState) : Except RenderError String × BuilderState :=
  run env fuel (.constructByName block_name) st

/-- Named wrapper for `BlockBuilder::construct_block`. -/
def construct_block (env : BuilderEnv) (fuel : Nat) (item : BlockItem)
    (st : BuilderState) : Except RenderError String × BuilderState :=
  run env fuel (.constructBlock item) st

/-- Named wrapper for `BlockBuilder::include`. -/
def include_block (env : BuilderEnv) (fuel : Nat) (name : String)
    (st : BuilderState) : Except RenderError String × BuilderState :=
  run env fuel (.includeCall name) st

/-- Named wrapper for `BlockBuilder::html`. -/
def html (env : BuilderEnv) (fuel : Nat) (head : Option Head)
    (body : Option (List BlockItem)) (st : BuilderState) :
    Except RenderError String × BuilderState :=
  run env fuel (.htmlCall head body) st

/-- Named wrapper for `BlockBuilder::for_each`. -/
def for_each (env : BuilderEnv) (fuel : Nat) (values : List String)
    (items : List BlockItem) (st : BuilderState) :
    Except RenderError String × BuilderState :=
  run env fuel (.forEachCall values items) st

/-- Named wrapper for `BlockBuilder::for_each_file`. -/
def for_each_file (env : BuilderEnv) (fuel : Nat) (pattern : String)
    (items : List BlockItem) (st : BuilderState) :
    Except RenderError String × BuilderState :=
  run env fuel (.forEachFileCall pattern items) st

/-! ## Concrete fixtures used by witnesses and counterexamples -/

/-- An environment with an empty namespace and the generator's four-space
indent unit (`generator.rs` passes `indent_string: "    "`). -/
def env0 : BuilderEnv :=
  { input_dir := "in", indent_string := "    ", debug := false, block_items := [] }

/-- The initial interpreter state (`BlockBuilder::new`). -/
def st0 : BuilderState := {}

/-- A namespace in which block `a` includes a missing block. -/
def envMissing : BuilderEnv :=
  { input_dir := "in", indent_string := "  ", debug := false,
    block_items := [("a", .Include "missing")] }

/-- An environment whose glob oracle matches one file for pattern `p1` and
one for pattern `p2`. -/
def envGlob : BuilderEnv :=
  { input_dir := "in", indent_string := "  ", debug := false, block_items := [],
    glob := fun p =>
      if p = "in/p1" then ["x/a.txt"] else if p = "in/p2" then ["y/b.txt"] else [] }

/-! ## Step equations for `run`

One definitional equation per interpreter arm (each proved by `rfl`); later
proofs rewrite with these instead of unfolding `run` wholesale. -/

/-- Appends the uniform trailing newline of `construct_block` on success. -/
def withNl : Except RenderError String × BuilderState →
    Except RenderError String × BuilderState
  | (.ok output, st') => (.ok (output ++ "\n"), st')
  | (.error e, st') => (.error e, st')

/-! ## Auxiliary definitions for the claim statements -/

/-- An environment in which block `a` is a plain `Br`. -/
def envBr : BuilderEnv :=
  { env0 with block_items := [("a", .Br)] }

/-- The initial state with `current_file` bound to `start`. -/
def stStart : BuilderState :=
  { st0 with current_file := "start" }

/-- Tests whether `ph` occurs as a contiguous run inside `cs`. -/
def containsSeq (ph : List Char) : List Char → Bool
  | [] => ph.isPrefixOf []
  | c :: rest => ph.isPrefixOf (c :: rest) || containsSeq ph rest

/-- The tail accepted by `u32::from_str_radix(_, 16)`: an optional leading
`+`, then one or more hexadecimal digits. -/
def accepted_radix16_tail (t : List Char) : Bool :=
  let digits := strip_plus t
  !digits.isEmpty && digits.all isHexDigit

/-- The exact domain of `Color::from_str`: `#` followed by six bytes, or
`0x` followed by six bytes, where the bytes form an optional leading `+`
sign and then hexadecimal digits. -/
def hex_color_shape (cs : List Char) : Bool :=
  (['#'].isPrefixOf cs && utf8_len cs = 7 && accepted_radix16_tail (cs.drop 1)) ||
  (['0', 'x'].isPrefixOf cs && utf8_len cs = 8 && accepted_radix16_tail (cs.drop 2))

mutual

def cf_safe : BlockItem → Bool
  | .Block _ _ items => cf_safe_list items
  | .ForEach pattern _ items => pattern.isNone && cf_safe_list items
  | .Html _ body =>
    match body with
    | some items => cf_safe_list items
    | none => true
  | _ => true

def cf_safe_list : List BlockItem → Bool
  | [] => true
  | item :: rest => cf_safe item && cf_safe_list rest

end

/-- Lifts `cf_safe` to interpreter calls.  `constructByName` and the
`for_each_file` calls are excluded; include calls are safe by their restore
discipline. -/
def cf_safe_call : Call → Bool
  | .constructByName _ => false
  | .constructBlock item => cf_safe item
  | .constructItems items => cf_safe_list items
  | .includeCall _ => true
  | .includeVerboseCall _ _ => true
  | .blockCall _ _ items => cf_safe_list items
  | .htmlCall _ body =>
    match body with
    | some items => cf_safe_list items
    | none => true
  | .forEachCall _ items => cf_safe_list items
  | .forEachFileCall _ _ => false
  | .forEachEntries _ _ => false

/-- Modelled from the claim: a string of the form `#` followed by six hex
digits, or `0x` followed by six hex digits. -/
def claimed_hex_form (cs : List Char) : Bool :=
  (['#'].isPrefixOf cs && (cs.drop 1).length = 6 && (cs.drop 1).all isHexDigit) ||
  (['0', 'x'].isPrefixOf cs && (cs.drop 2).length = 6 && (cs.drop 2).all isHexDigit)

/-- Black with no hover color. -/
def lcBlack : LinkColor := ⟨⟨0, 0, 0⟩, none⟩

/-- Black with a red hover color: same `normal` as `lcBlack`. -/
def lcBlackRed : LinkColor := ⟨⟨0, 0, 0⟩, some ⟨255, 0, 0⟩⟩

/-- Modelled from the spec: a placeholder occurrence at the head of `cs`
satisfying the trailing boundary rule — the placeholder text followed by
end-of-string or a non-word character. -/
def placeholder_at (ph cs : List Char) : Bool :=
  ph.isPrefixOf cs &&
    (match cs.drop ph.length with
     | [] => true
     | d :: _ => !isWordChar d)

/-- Modelled from the spec: scans `cs` (with `prev` the character before the
scan position) for an occurrence of `$loop_value` or `$loop_value_filename`
satisfying the boundary rule — preceded by start-of-string or a
non-backslash character, and followed by end-of-string or a non-word
character. -/
def has_boundary_placeholder_from : Option Char → List Char → Bool
  | prev, cs =>
    ((prev.all fun c => c ≠ '\\') &&
      (placeholder_at "$loop_value_filename".data cs ||
       placeholder_at "$loop_value".data cs)) ||
    (match cs with
     | [] => false
     | c :: rest => has_boundary_placeholder_from (some c) rest)

/-- Modelled from the spec: the string contains an occurrence of a
placeholder satisfying the boundary rule of §4.6. -/
def has_boundary_placeholder (s : String) : Bool :=
  has_boundary_placeholder_from none s.data

/-- The exact text `construct_block` produces for `Html{head: None, body:
None}` at indent level zero, for indent unit `indent`: an eight-line
document skeleton followed by the uniform trailing newline of
`construct_block`. -/
def html_skeleton (indent : String) : String :=
  "<!DOCTYPE html>\n<html>\n" ++ indent ++ "<head>\n" ++ indent ++ indent ++
    "<meta charset=\"utf-8\">\n" ++ indent ++ "</head>\n" ++ indent ++ "<body>\n"
    ++ indent ++ "</body>\n" ++ "</html>\n" ++ "\n"

theorem run_fuel_zero (env : BuilderEnv) (call : Call) (st : BuilderState) :
    run env 0 call st = (.error .outOfFuel, st) := rfl

theorem run_constructByName (env : BuilderEnv) (fuel : Nat) (name : String)
    (st : BuilderState) :
    run env (fuel + 1) (.constructByName name) st =
      match mapLookup env.block_items name with
      | none => (.error (.notFound ("Block " ++ name ++ " not found")), st)
      | some block => run env fuel (.constructBlock block) st := rfl

theorem run_item_Include (env : BuilderEnv) (fuel : Nat) (name : String)
    (st : BuilderState) :
    run env (fuel + 1) (.constructBlock (.Include name)) st =
      withNl (run env fuel (.includeCall (process_special_values st name)) st) := rfl

theorem run_item_Title (env : BuilderEnv) (fuel : Nat) (t : String)
    (st : BuilderState) :
    run env (fuel + 1) (.constructBlock (.Title t)) st =
      (.ok (get_indent env st ++ title (process_special_values st t) ++ "\n"), st) := rfl

theorem run_item_Block (env : BuilderEnv) (fuel : Nat) (style html_type : Option String)
    (items : List BlockItem) (st : BuilderState) :
    run env (fuel + 1) (.constructBlock (.Block style html_type items)) st =
      withNl (run env fuel (.blockCall style html_type items) st) := rfl

theorem run_item_Markdown (env : BuilderEnv) (fuel : Nat) (md_file : String)
    (st : BuilderState) :
    run env (fuel + 1) (.constructBlock (.Markdown md_file)) st =
      (.ok (get_indent env st ++ markdown env (process_special_values st md_file) ++ "\n"),
       st) := rfl

theorem run_item_Code (env : BuilderEnv) (fuel : Nat) (code_file : String)
    (st : BuilderState) :
    run env (fuel + 1) (.constructBlock (.Code code_file)) st =
      (.ok (get_indent env st ++ code (process_special_values st code_file) ++ "\n"),
       st) := rfl

theorem run_item_Image (env : BuilderEnv) (fuel : Nat) (path : String)
    (alt : Option String) (st : BuilderState) :
    run env (fuel + 1) (.constructBlock (.Image path alt)) st =
      (.ok (get_indent env st ++ image (process_special_values st path) alt ++ "\n"),
       st) := rfl

theorem run_item_Text (env : BuilderEnv) (fuel : Nat) (raw : String)
    (st : BuilderState) :
    run env (fuel + 1) (.constructBlock (.Text raw)) st =
      (.ok (get_indent env st ++ text (process_special_values st raw) ++ "\n"), st) := rfl

theorem run_item_Link (env : BuilderEnv) (fuel : Nat) (t url : String)
    (link_style : LinkStyle) (st : BuilderState) :
    run env (fuel + 1) (.constructBlock (.Link t url link_style)) st =
      (let r := link st (process_special_values st t) url link_style
       (.ok (get_indent env st ++ r.1 ++ "\n"), r.2)) := rfl

theorem run_item_Br (env : BuilderEnv) (fuel : Nat) (st : BuilderState) :
    run env (fuel + 1) (.constructBlock .Br) st =
      (.ok (get_indent env st ++ br ++ "\n"), st) := rfl

theorem run_item_IncludeVerbose (env : BuilderEnv) (fuel : Nat) (path : String)
    (params : Option (List String)) (st : BuilderState) :
    run env (fuel + 1) (.constructBlock (.IncludeVerbose path params)) st =
      withNl
        (match run env fuel
            (.includeVerboseCall (process_special_values st path) params) st with
         | (.ok s, st') => (.ok (get_indent env st ++ s), st')
         | (.error e, st') => (.error e, st')) := rfl

theorem run_item_ForEach (env : BuilderEnv) (fuel : Nat)
    (pattern : Option String) (values : Option (List String))
    (items : List BlockItem) (st : BuilderState) :
    run env (fuel + 1) (.constructBlock (.ForEach pattern values items)) st =
      withNl
        (if values.isSome && pattern.isSome then
           (.error (.invalidInput "ForEach: values and pattern are both set"), st)
         else
           match
             (match values with
              | some what => run env fuel (.forEachCall what items) st
              | none => (.ok "", st)) with
           | (.error e, st1) => (.error e, st1)
           | (.ok out1, st1) =>
             match pattern with
             | some what =>
               (match run env fuel (.forEachFileCall what items) st1 with
                | (.ok out2, st2) => (.ok (out1 ++ out2), st2)
                | (.error e, st2) => (.error e, st2))
             | none => (.ok (out1 ++ ""), st1)) := rfl

theorem run_item_LoopValue (env : BuilderEnv) (fuel : Nat) (st : BuilderState) :
    run env (fuel + 1) (.constructBlock .LoopValue) st =
      (.ok (get_indent env st ++ loop_value st ++ "\n"), st) := rfl

theorem run_item_LoopValueFileName (env : BuilderEnv) (fuel : Nat)
    (st : BuilderState) :
    run env (fuel + 1) (.constructBlock .LoopValueFileName) st =
      (.ok (get_indent env st ++ loop_value_filename st ++ "\n"), st) := rfl

theorem run_item_Html (env : BuilderEnv) (fuel : Nat) (head : Option Head)
    (body : Option (List BlockItem)) (st : BuilderState) :
    run env (fuel + 1) (.constructBlock (.Html head body)) st =
      withNl (run env fuel (.htmlCall head body) st) := rfl

theorem run_constructItems_nil (env : BuilderEnv) (fuel : Nat) (st : BuilderState) :
    run env (fuel + 1) (.constructItems []) st = (.ok "", st) := rfl

theorem run_constructItems_cons (env : BuilderEnv) (fuel : Nat) (item : BlockItem)
    (rest : List BlockItem) (st : BuilderState) :
    run env (fuel + 1) (.constructItems (item :: rest)) st =
      (match run env fuel (.constructBlock item) st with
       | (.ok s, st') =>
         (match run env fuel (.constructItems rest) st' with
          | (.ok s2, st'') => (.ok (s ++ s2), st'')
          | (.error e, st'') => (.error e, st''))
       | (.error e, st') => (.error e, st')) := rfl

theorem run_includeCall (env : BuilderEnv) (fuel : Nat) (name : String)
    (st : BuilderState) :
    run env (fuel + 1) (.includeCall name) st =
      (match mapLookup env.block_items name with
       | some _ =>
         (match run env fuel (.constructByName name)
             { st with current_file := name } with
          | (.ok s, st') =>
            (.ok ((if env.debug then
                get_indent env st ++ "<!-- Including block " ++ name ++ " -->\n"
              else "") ++ s),
             { st' with current_file := st.current_file })
          | (.error e, st') => (.error e, st'))
       | none => (.error (.notFound ("Block " ++ name ++ " not found")), st)) := rfl

theorem run_includeVerboseCall (env : BuilderEnv) (fuel : Nat) (name : String)
    (params : Option (List String)) (st : BuilderState) :
    run env (fuel + 1) (.includeVerboseCall name params) st =
      (match mapLookup env.block_items name with
       | some _ =>
         (match run env fuel (.constructByName name)
             { st with current_file := name } with
          | (.ok s, st') =>
            (.ok ((if env.debug then
                get_indent env st ++ "<!-- Including block " ++ name ++ " -->\n"
              else "") ++ s),
             { st' with current_file := st.current_file })
          | (.error e, st') => (.error e, st'))
       | none => (.error (.notFound ("Block " ++ name ++ " not found")), st)) := rfl

theorem run_blockCall (env : BuilderEnv) (fuel : Nat)
    (style html_type : Option String) (items : List BlockItem) (st : BuilderState) :
    run env (fuel + 1) (.blockCall style html_type items) st =
      (let ht := match html_type with
        | some what => what
        | none => "div"
       let opening := get_indent env st ++
         (match style with
          | some style => "<" ++ ht ++ " class=\"" ++ style ++ "\">"
          | none => "<" ++ ht ++ ">") ++ "\n"
       match run env fuel (.constructItems items)
           { st with indent_level := st.indent_level + 1 } with
       | (.ok body, st') =>
         (.ok (opening ++ body ++
            get_indent env { st' with indent_level := st'.indent_level - 1 } ++
            "</" ++ ht ++ ">"),
          { st' with indent_level := st'.indent_level - 1 })
       | (.error e, st') => (.error e, st')) := rfl

theorem run_htmlCall (env : BuilderEnv) (fuel : Nat) (head : Option Head)
    (body : Option (List BlockItem)) (st : BuilderState) :
    run env (fuel + 1) (.htmlCall head body) st =
      (let output := "<!DOCTYPE html>\n<html>\n"
       let st := { st with indent_level := st.indent_level + 1 }
       let output := output ++ get_indent env st ++ "<head>\n"
       let st := { st with indent_level := st.indent_level + 1 }
       let output := output ++ get_indent env st ++ "<meta charset=\"utf-8\">\n"
       let output := output ++
         (match head with
          | some head =>
            (match head.title with
             | some t => get_indent env st ++ "<title>" ++ t ++ "</title>\n"
             | none => "") ++
            (match head.icon with
             | some icon => get_indent env st ++
                 "<link rel=\"icon\" href=\"" ++ icon ++ "\" type=\"image/x-icon\" />\n"
             | none => "") ++
            (match head.styles with
             | some styles => String.join (styles.map (fun s =>
                 get_indent env st ++ "<link rel=\"stylesheet\" href=\"" ++ s ++ "\" />\n"))
             | none => "") ++
            (match head.scripts with
             | some scripts => String.join (scripts.map (fun s =>
                 get_indent env st ++ "<script src=\"" ++ s ++ "\" />\n"))
             | none => "")
          | none => "")
       let st := { st with indent_level := st.indent_level - 1 }
       let output := output ++ get_indent env st ++ "</head>\n"
         ++ get_indent env st ++ "<body>\n"
       let st := { st with indent_level := st.indent_level + 1 }
       let bodyRes : Except RenderError String × BuilderState :=
         match body with
         | some items => run env fuel (.constructItems items) st
         | none => (.ok "", st)
       match bodyRes with
       | (.ok bodyOut, st') =>
         let st' := { st' with indent_level := st'.indent_level - 1 }
         let output := output ++ bodyOut ++ get_indent env st' ++ "</body>\n"
         let st' := { st' with indent_level := st'.indent_level - 1 }
         (.ok (output ++ "</html>\n"), st')
       | (.error e, st') => (.error e, st')) := rfl

theorem run_forEachCall_nil (env : BuilderEnv) (fuel : Nat)
    (items : List BlockItem) (st : BuilderState) :
    run env (fuel + 1) (.forEachCall [] items) st = (.ok "", st) := rfl

theorem run_forEachCall_cons (env : BuilderEnv) (fuel : Nat) (value : String)
    (rest : List String) (items : List BlockItem) (st : BuilderState) :
    run env (fuel + 1) (.forEachCall (value :: rest) items) st =
      (match run env fuel (.constructItems items)
          { st with current_loop_value := value } with
       | (.ok s, st') =>
         (match run env fuel (.forEachCall rest items) st' with
          | (.ok s2, st'') => (.ok (s ++ s2), st'')
          | (.error e, st'') => (.error e, st''))
       | (.error e, st') => (.error e, st')) := rfl

theorem run_forEachFileCall (env : BuilderEnv) (fuel : Nat) (pattern : String)
    (items : List BlockItem) (st : BuilderState) :
    run env (fuel + 1) (.forEachFileCall pattern items) st =
      run env fuel
        (.forEachEntries (env.glob (env.input_dir ++ "/" ++ pattern)) items) st := rfl

theorem run_forEachEntries_nil (env : BuilderEnv) (fuel : Nat)
    (items : List BlockItem) (st : BuilderState) :
    run env (fuel + 1) (.forEachEntries [] items) st = (.ok "", st) := rfl

theorem run_forEachEntries_cons (env : BuilderEnv) (fuel : Nat) (entry : String)
    (rest : List String) (items : List BlockItem) (st : BuilderState) :
    run env (fuel + 1) (.forEachEntries (entry :: rest) items) st =
      (match run env fuel (.constructItems items)
          { st with current_file := (pathFileName entry).getD "",
                    current_loop_value := (pathFileName entry).getD "" } with
       | (.ok s, st') =>
         (match run env fuel (.forEachEntries rest items) st' with
          | (.ok s2, st'') => (.ok (s ++ s2), st'')
          | (.error e, st'') => (.error e, st''))
       | (.error e, st') => (.error e, st')) := rfl

/-! ## Small algebraic lemmas -/

theorem mapLookup_cons {α : Type} (p : String × α) (m : List (String × α))
    (k : String) :
    mapLookup (p :: m) k = if p.1 = k then some p.2 else mapLookup m k := by
  by_cases hp : p.1 = k
  · simp [mapLookup, List.find?_cons_of_pos, hp]
  · simp [mapLookup, List.find?_cons_of_neg, hp]

theorem mapLookup_map_overwrite {α : Type} (m : List (String × α)) (k : String)
    (v : α) (hany : (m.any fun p => p.1 = k) = true) :
    mapLookup (m.map (fun p => if p.1 = k then (k, v) else p)) k = some v := by
  induction m with
  | nil => simp at hany
  | cons p rest ih =>
    by_cases hp : p.1 = k
    · simp [List.map_cons, if_pos hp, mapLookup_cons]
    · simp only [List.any_cons, Bool.or_eq_true, decide_eq_true_eq] at hany
      rcases hany with h | h
      · exact absurd h hp
      · simp [List.map_cons, if_neg hp, mapLookup_cons, hp, ih (by simpa using h)]

theorem mapLookup_append_singleton {α : Type} (m : List (String × α))
    (k k' : String) (v : α) :
    mapLookup (m ++ [(k, v)]) k' =
      if (mapLookup m k').isSome then mapLookup m k'
      else if k = k' then some v else none := by
  induction m with
  | nil =>
    by_cases hk : k = k' <;> simp [mapLookup_cons, mapLookup, hk]
  | cons p rest ih =>
    by_cases hp : p.1 = k'
    · simp [mapLookup_cons, hp]
    · simp [mapLookup_cons, hp, ih]

theorem mapLookup_none_of_any_false {α : Type} (m : List (String × α))
    (k : String) (hany : ¬ (m.any fun p => p.1 = k) = true) :
    mapLookup m k = none := by
  induction m with
  | nil => simp [mapLookup]
  | cons p rest ih =>
    simp only [List.any_cons, Bool.or_eq_true, decide_eq_true_eq, not_or] at hany
    simp [mapLookup_cons, hany.1, ih (by simp [hany.2])]

theorem mapLookup_mapInsert_self {α : Type} (m : List (String × α)) (k : String)
    (v : α) : mapLookup (mapInsert m k v) k = some v := by
  unfold mapInsert
  by_cases hany : (m.any fun p => p.1 = k) = true
  · simpa [hany] using mapLookup_map_overwrite m k v hany
  · simp only [if_neg hany]
    rw [mapLookup_append_singleton, mapLookup_none_of_any_false m k hany]
    simp

theorem mapLookup_map_ne {α : Type} (m : List (String × α)) (k k' : String)
    (v : α) (h : k' ≠ k) :
    mapLookup (m.map (fun p => if p.1 = k then (k, v) else p)) k' =
      mapLookup m k' := by
  induction m with
  | nil => simp
  | cons p rest ih =>
    by_cases hp : p.1 = k
    · have h1 : ¬ (k = k') := fun hc => h hc.symm
      have h2 : ¬ (p.1 = k') := hp ▸ h1
      rw [List.map_cons, if_pos hp, mapLookup_cons, mapLookup_cons]
      simp only [h1, h2, if_false]
      exact ih
    · rw [List.map_cons, if_neg hp, mapLookup_cons, mapLookup_cons]
      by_cases hq : p.1 = k'
      · simp [hq]
      · simp only [hq, if_false]
        exact ih

theorem mapLookup_mapInsert_ne {α : Type} (m : List (String × α)) (k k' : String)
    (v : α) (h : k' ≠ k) : mapLookup (mapInsert m k v) k' = mapLookup m k' := by
  unfold mapInsert
  by_cases hany : (m.any fun p => p.1 = k) = true
  · simpa [hany] using mapLookup_map_ne m k k' v h
  · simp only [if_neg hany]
    rw [mapLookup_append_singleton]
    by_cases hs : (mapLookup m k').isSome
    · simp [hs]
    · simp [hs, show ¬ (k = k') from fun hc => h hc.symm,
        Option.not_isSome_iff_eq_none.mp hs]

theorem string_append_right_ne (s t t' : String) (h : t ≠ t') : s ++ t ≠ s ++ t' := by
  intro hc
  apply h
  apply String.ext
  have := congrArg String.data hc
  simp only [String.data_append] at this
  exact List.append_cancel_left this

/-! ## Claim C3 -/

/-- Claim C3: a `ForEach` with both `values` and `pattern` set fails with the
`InvalidInput` error before any iteration begins, leaving the whole
interpreter state (in particular `current_loop_value` and
`generated_styles`) unchanged and producing no output; a `ForEach` with
neither field set performs zero iterations (the state is returned unchanged
and only the uniform trailing newline of `construct_block` is emitted). -/
theorem C3_foreach_validation :
    (∀ (env : BuilderEnv) (fuel : Nat) (st : BuilderState) (p : String)
        (vs : List String) (items : List BlockItem),
      construct_block env (fuel + 1) (.ForEach (some p) (some vs) items) st =
        (.error (.invalidInput "ForEach: values and pattern are both set"), st)) ∧
    (∀ (env : BuilderEnv) (fuel : Nat) (st : BuilderState)
        (items : List BlockItem),
      construct_block env (fuel + 1) (.ForEach none none items) st =
        (.ok "\n", st)) := by
  constructor
  · intro env fuel st p vs items
    rfl
  · intro env fuel st items
    rfl

/-! ## Claim C5 -/

/-- Claim C5: for a name absent from the block namespace,
`construct_by_name` fails with a `NotFound` error naming the missing block
and returns the state unchanged (so no incomplete output escapes); rendering an
`Include` of a name whose substituted form is absent fails with the same
`NotFound` error, propagated unchanged.  (`construct_block` passes the
include name through `process_special_values` before resolution.) -/
theorem C5_not_found :
    (∀ (env : BuilderEnv) (fuel : Nat) (st : BuilderState) (name : String),
      mapLookup env.block_items name = none →
      construct_by_name env (fuel + 1) name st =
        (.error (.notFound ("Block " ++ name ++ " not found")), st)) ∧
    (∀ (env : BuilderEnv) (fuel : Nat) (st : BuilderState) (name : String),
      mapLookup env.block_items (process_special_values st name) = none →
      construct_block env (fuel + 2) (.Include name) st =
        (.error
          (.notFound ("Block " ++ process_special_values st name ++ " not found")),
         st)) := by
  constructor
  · intro env fuel st name h
    rw [construct_by_name, run_constructByName, h]
  · intro env fuel st name h
    rw [construct_block, run_item_Include, run_includeCall, h]
    rfl

/-- Witness for C5 at a concrete absent name in the empty namespace. -/
theorem C5_not_found_witness :
    construct_by_name env0 1 "nope" st0 =
      (.error (.notFound "Block nope not found"), st0) ∧
    construct_block env0 2 (.Include "nope") st0 =
      (.error (.notFound "Block nope not found"), st0) := by
  refine ⟨C5_not_found.1 env0 0 st0 "nope" (by rfl), ?_⟩
  have h := C5_not_found.2 env0 0 st0 "nope" (by rfl)
  exact h

/-! ## Claim C6 -/

/-- Counterexample to claim C6: block `a` exists but includes a missing
block, so the nested render fails; the failing `include` leaves
`current_file` bound to `"a"` instead of restoring the previous value
`"start"` — the save/restore is skipped by the `?` early return. -/
theorem C6_counterexample :
    include_block envMissing 5 "a" { st0 with current_file := "start" } =
      (.error (.notFound "Block missing not found"),
       { indent_level := 0, current_file := "a", current_loop_value := "",
         generated_styles := [] }) ∧
    ("a" : String) ≠ "start" := by
  exact ⟨by decide, by decide⟩

/-- Claim C6, amended: for every `Include` render whose nested render
succeeds, `current_file` is restored to its previous value; on error exits
the rebinding can persist (see the counterexample). -/
theorem C6_include_restores_current_file (env : BuilderEnv) (fuel : Nat)
    (name : String) (st : BuilderState) (out : String) (st' : BuilderState)
    (h : include_block env fuel name st = (.ok out, st')) :
    st'.current_file = st.current_file := by
  match fuel with
  | 0 =>
    rw [include_block, run_fuel_zero] at h
    simp at h
  | fuel + 1 =>
    rw [include_block, run_includeCall] at h
    split at h
    · split at h
      · simp only [Prod.mk.injEq, Except.ok.injEq] at h
        rw [← h.2]
      · simp at h
    · simp at h


/-- Witness for C6 at a successful include. -/
theorem C6_include_restores_current_file_witness :
    include_block envBr 3 "a" stStart = (.ok "<br />\n", stStart) ∧
    stStart.current_file = stStart.current_file := by
  refine ⟨by decide, ?_⟩
  exact C6_include_restores_current_file envBr 3 "a" stStart "<br />\n" stStart
    (by decide)

/-! ## Substring occurrence and scanner identity lemmas -/


theorem containsSeq_occurrence_spec (ph : List Char) :
    ∀ cs, containsSeq ph cs = true ↔ ph <:+: cs := by
  intro cs
  induction cs with
  | nil =>
    simp [containsSeq, List.isPrefixOf_iff_prefix ]
  | cons c rest ih =>
    simp [containsSeq, List.isPrefixOf_iff_prefix , ih, List.infix_cons_iff]

theorem containsSeq_trans {a b cs : List Char} (hab : containsSeq a b = true)
    (hbc : containsSeq b cs = true) : containsSeq a cs = true := by
  rw [containsSeq_occurrence_spec] at hab hbc ⊢
  exact hab.trans hbc

theorem not_contains_mono {a b : List Char} (hab : containsSeq a b = true)
    {cs : List Char} (h : containsSeq a cs = false) :
    containsSeq b cs = false := by
  by_contra hc
  have hb : containsSeq b cs = true := by
    simpa using hc
  have := containsSeq_trans hab hb
  rw [h] at this
  cases this

theorem prefixOf_false_of_not_contains {ph cs : List Char}
    (h : containsSeq ph cs = false) : ph.isPrefixOf cs = false := by
  cases cs with
  | nil => simpa [containsSeq] using h
  | cons c rest =>
    simp only [containsSeq, Bool.or_eq_false_iff] at h
    exact h.1

theorem containsSeq_tail {ph : List Char} {c : Char} {rest : List Char}
    (h : containsSeq ph (c :: rest) = false) : containsSeq ph rest = false := by
  simp only [containsSeq, Bool.or_eq_false_iff] at h
  exact h.2

theorem tryMatchAt_eq_none (ph repl : List Char) (atStart : Bool)
    (cs : List Char) (h : containsSeq ph cs = false) :
    tryMatchAt ph repl atStart cs = none := by
  unfold tryMatchAt
  cases cs with
  | nil =>
    simp [prefixOf_false_of_not_contains h]
  | cons c rest =>
    have h1 : ph.isPrefixOf (c :: rest) = false := prefixOf_false_of_not_contains h
    have h2 : ph.isPrefixOf rest = false :=
      prefixOf_false_of_not_contains (containsSeq_tail h)
    simp [h1, h2]

theorem goReplace_id (ph repl : List Char) :
    ∀ (fuel : Nat) (atStart : Bool) (cs : List Char),
      containsSeq ph cs = false → goReplace ph repl fuel atStart cs = cs := by
  intro fuel
  induction fuel with
  | zero => intro _ cs _; rfl
  | succ n ih =>
    intro atStart cs h
    cases cs with
    | nil => simp [goReplace, tryMatchAt_eq_none _ _ _ _ h]
    | cons c rest =>
      simp [goReplace, tryMatchAt_eq_none _ _ _ _ h, ih false rest (containsSeq_tail h)]

theorem strReplaceGo_id (pat rep : List Char) :
    ∀ (fuel : Nat) (cs : List Char),
      containsSeq pat cs = false → strReplaceGo pat rep fuel cs = cs := by
  intro fuel
  induction fuel with
  | zero => intro cs _; rfl
  | succ n ih =>
    intro cs h
    cases cs with
    | nil => rfl
    | cons c rest =>
      simp [strReplaceGo, prefixOf_false_of_not_contains h,
        ih rest (containsSeq_tail h)]

/-- Substitution on a string with no occurrence of the text `$loop_value`
(hence none of `$loop_value_filename` or of either escaped form) is the
identity, for every interpreter state. -/
theorem process_special_values_id (st : BuilderState) (s : String)
    (h : containsSeq "$loop_value".data s.data = false) :
    process_special_values st s = s := by
  have hf : containsSeq "$loop_value_filename".data s.data = false :=
    not_contains_mono (by decide) h
  have he1 : containsSeq "\\$loop_value_filename".data s.data = false :=
    not_contains_mono (by decide) h
  have he2 : containsSeq "\\$loop_value".data s.data = false :=
    not_contains_mono (by decide) h
  unfold process_special_values replaceAllBoundary strReplaceAll
  simp only []
  rw [goReplace_id _ _ _ _ _ hf, strReplaceGo_id _ _ _ _ he1,
    goReplace_id _ _ _ _ _ h, strReplaceGo_id _ _ _ _ he2]

/-! ## Success-preservation of `indent_level`

`block` and `html` increment and decrement symmetrically on the success
path, and no other renderer touches `indent_level`, so a successful render
always returns with the entry indent; the induction below makes that
precise for every interpreter call. -/

theorem link_preserves (st : BuilderState) (t url : String) (ls : LinkStyle) :
    (link st t url ls).2.indent_level = st.indent_level ∧
    (link st t url ls).2.current_file = st.current_file ∧
    (link st t url ls).2.current_loop_value = st.current_loop_value := by
  cases ls <;> simp [link]

theorem withNl_eq_ok (r : Except RenderError String × BuilderState)
    (out : String) (st' : BuilderState) (h : withNl r = (.ok out, st')) :
    ∃ o, r = (.ok o, st') := by
  obtain ⟨a, b⟩ := r
  cases a with
  | ok v =>
    simp only [withNl, Prod.mk.injEq, Except.ok.injEq] at h
    exact ⟨v, by rw [h.2]⟩
  | error e => simp [withNl] at h

theorem run_ok_indent (env : BuilderEnv) :
    ∀ (fuel : Nat) (call : Call) (st : BuilderState) (out : String)
      (st' : BuilderState),
      run env fuel call st = (.ok out, st') →
      st'.indent_level = st.indent_level := by
  intro fuel
  induction fuel with
  | zero =>
    intro call st out st' h
    rw [run_fuel_zero] at h
    simp at h
  | succ n ih =>
    intro call st out st' h
    cases call with
    | constructByName name =>
      rw [run_constructByName] at h
      split at h
      · simp at h
      · exact ih _ _ _ _ h
    | constructBlock item =>
      cases item with
      | Include name =>
        rw [run_item_Include] at h
        obtain ⟨o, ho⟩ := withNl_eq_ok _ _ _ h
        exact ih _ _ _ _ ho
      | IncludeVerbose path params =>
        rw [run_item_IncludeVerbose] at h
        obtain ⟨o, ho⟩ := withNl_eq_ok _ _ _ h
        split at ho
        · rename_i s st₂ heq
          simp only [Prod.mk.injEq, Except.ok.injEq] at ho
          rw [← ho.2]
          exact ih _ _ _ _ heq
        · simp at ho
      | Title t =>
        rw [run_item_Title] at h
        simp only [Prod.mk.injEq, Except.ok.injEq] at h
        rw [← h.2]
      | Block style html_type items =>
        rw [run_item_Block] at h
        obtain ⟨o, ho⟩ := withNl_eq_ok _ _ _ h
        exact ih _ _ _ _ ho
      | Markdown md_file =>
        rw [run_item_Markdown] at h
        simp only [Prod.mk.injEq, Except.ok.injEq] at h
        rw [← h.2]
      | Code code_file =>
        rw [run_item_Code] at h
        simp only [Prod.mk.injEq, Except.ok.injEq] at h
        rw [← h.2]
      | Image path alt =>
        rw [run_item_Image] at h
        simp only [Prod.mk.injEq, Except.ok.injEq] at h
        rw [← h.2]
      | Text raw =>
        rw [run_item_Text] at h
        simp only [Prod.mk.injEq, Except.ok.injEq] at h
        rw [← h.2]
      | Link t url link_style =>
        rw [run_item_Link] at h
        simp only [Prod.mk.injEq, Except.ok.injEq] at h
        rw [← h.2]
        exact (link_preserves st _ url link_style).1
      | Br =>
        rw [run_item_Br] at h
        simp only [Prod.mk.injEq, Except.ok.injEq] at h
        rw [← h.2]
      | ForEach pattern values items =>
        rw [run_item_ForEach] at h
        obtain ⟨o, ho⟩ := withNl_eq_ok _ _ _ h
        split at ho
        · simp at ho
        · split at ho
          · simp at ho
          · rename_i out1 st1 heq1
            have hst1 : st1.indent_level = st.indent_level := by
              split at heq1
              · exact ih _ _ _ _ heq1
              · simp only [Prod.mk.injEq, Except.ok.injEq] at heq1
                rw [← heq1.2]
            split at ho
            · split at ho
              · rename_i out2 st2 heq2
                simp only [Prod.mk.injEq, Except.ok.injEq] at ho
                rw [← ho.2, ih _ _ _ _ heq2, hst1]
              · simp at ho
            · simp only [Prod.mk.injEq, Except.ok.injEq] at ho
              rw [← ho.2, hst1]
      | LoopValue =>
        rw [run_item_LoopValue] at h
        simp only [Prod.mk.injEq, Except.ok.injEq] at h
        rw [← h.2]
      | LoopValueFileName =>
        rw [run_item_LoopValueFileName] at h
        simp only [Prod.mk.injEq, Except.ok.injEq] at h
        rw [← h.2]
      | Html head body =>
        rw [run_item_Html] at h
        obtain ⟨o, ho⟩ := withNl_eq_ok _ _ _ h
        exact ih _ _ _ _ ho
    | constructItems items =>
      cases items with
      | nil =>
        rw [run_constructItems_nil] at h
        simp only [Prod.mk.injEq, Except.ok.injEq] at h
        rw [← h.2]
      | cons item rest =>
        rw [run_constructItems_cons] at h
        split at h
        · rename_i s stm heq1
          split at h
          · rename_i s2 st₂ heq2
            simp only [Prod.mk.injEq, Except.ok.injEq] at h
            rw [← h.2, ih _ _ _ _ heq2, ih _ _ _ _ heq1]
          · simp at h
        · simp at h
    | includeCall name =>
      rw [run_includeCall] at h
      split at h
      · split at h
        · rename_i s st₂ heq
          simp only [Prod.mk.injEq, Except.ok.injEq] at h
          rw [← h.2]
          simpa using ih _ _ _ _ heq
        · simp at h
      · simp at h
    | includeVerboseCall name params =>
      rw [run_includeVerboseCall] at h
      split at h
      · split at h
        · rename_i s st₂ heq
          simp only [Prod.mk.injEq, Except.ok.injEq] at h
          rw [← h.2]
          simpa using ih _ _ _ _ heq
        · simp at h
      · simp at h
    | blockCall style html_type items =>
      rw [run_blockCall] at h
      split at h <;> split at h <;> split at h <;>
        first
        | (rename_i body st₂ heq
           have hi := ih _ _ _ _ heq
           simp only [Prod.mk.injEq, Except.ok.injEq] at h
           rw [← h.2]
           simp only [BuilderState.indent_level] at hi ⊢
           omega)
        | simp at h
    | htmlCall head body =>
      rw [run_htmlCall] at h
      simp only [] at h
      split at h
      · rename_i bodyOut st₂ heq
        have hst₂ : st₂.indent_level = st.indent_level + 1 + 1 - 1 + 1 := by
          split at heq
          · simpa using ih _ _ _ _ heq
          · simp only [Prod.mk.injEq, Except.ok.injEq] at heq
            rw [← heq.2]
        simp only [Prod.mk.injEq, Except.ok.injEq] at h
        rw [← h.2]
        simp only [BuilderState.indent_level] at hst₂ ⊢
        omega
      · simp at h
    | forEachCall values items =>
      cases values with
      | nil =>
        rw [run_forEachCall_nil] at h
        simp only [Prod.mk.injEq, Except.ok.injEq] at h
        rw [← h.2]
      | cons value rest =>
        rw [run_forEachCall_cons] at h
        split at h
        · rename_i s stm heq1
          split at h
          · rename_i s2 st₂ heq2
            simp only [Prod.mk.injEq, Except.ok.injEq] at h
            rw [← h.2, ih _ _ _ _ heq2]
            simpa using ih _ _ _ _ heq1
          · simp at h
        · simp at h
    | forEachFileCall pattern items =>
      rw [run_forEachFileCall] at h
      exact ih _ _ _ _ h
    | forEachEntries entries items =>
      cases entries with
      | nil =>
        rw [run_forEachEntries_nil] at h
        simp only [Prod.mk.injEq, Except.ok.injEq] at h
        rw [← h.2]
      | cons entry rest =>
        rw [run_forEachEntries_cons] at h
        split at h
        · rename_i s stm heq1
          split at h
          · rename_i s2 st₂ heq2
            simp only [Prod.mk.injEq, Except.ok.injEq] at h
            rw [← h.2, ih _ _ _ _ heq2]
            simpa using ih _ _ _ _ heq1
          · simp at h
        · simp at h

/-! ## Color lemmas -/

theorem hexVal_lt_16 (c : Char) : hexVal c < 16 := by
  unfold hexVal
  split
  · rename_i h
    simp only [Char.isDigit, Bool.and_eq_true, decide_eq_true_eq] at h
    obtain ⟨h1, h2⟩ := h
    rw [ge_iff_le, UInt32.le_def, BitVec.le_def] at h1
    rw [UInt32.le_def, BitVec.le_def] at h2
    have h1' : 48 ≤ c.toNat := h1
    have h2' : c.toNat ≤ 57 := h2
    show c.toNat - '0'.toNat < 16
    have : '0'.toNat = 48 := rfl
    omega
  · split
    · rename_i h
      simp only [Bool.and_eq_true, decide_eq_true_eq] at h
      obtain ⟨h1, h2⟩ := h
      rw [Char.le_def, UInt32.le_def, BitVec.le_def] at h1 h2
      have h1' : 97 ≤ c.toNat := h1
      have h2' : c.toNat ≤ 102 := h2
      show c.toNat - 'a'.toNat + 10 < 16
      have : 'a'.toNat = 97 := rfl
      omega
    · split
      · rename_i h
        simp only [Bool.and_eq_true, decide_eq_true_eq] at h
        obtain ⟨h1, h2⟩ := h
        rw [Char.le_def, UInt32.le_def, BitVec.le_def] at h1 h2
        have h1' : 65 ≤ c.toNat := h1
        have h2' : c.toNat ≤ 70 := h2
        show c.toNat - 'A'.toNat + 10 < 16
        have : 'A'.toNat = 65 := rfl
        omega
      · omega

theorem utf8Size_eq_one_of_le (c : Char) (h : c.toNat ≤ 127) : c.utf8Size = 1 := by
  rw [Char.utf8Size]
  have hle : c.val ≤ UInt32.ofNatCore 127 Char.utf8Size.proof_1 := by
    rw [UInt32.le_def, BitVec.le_def]
    exact h
  rw [if_pos hle]

theorem hexDigit_utf8Size_one (c : Char) (h : isHexDigit c = true) :
    c.utf8Size = 1 := by
  apply utf8Size_eq_one_of_le
  unfold isHexDigit at h
  simp only [Bool.or_eq_true, Bool.and_eq_true, decide_eq_true_eq] at h
  rcases h with (h | h) | h
  · simp only [Char.isDigit, Bool.and_eq_true, decide_eq_true_eq] at h
    have h2 := h.2
    rw [UInt32.le_def, BitVec.le_def] at h2
    have h2' : c.toNat ≤ 57 := h2
    omega
  · have h2 := h.2
    rw [Char.le_def, UInt32.le_def, BitVec.le_def] at h2
    have h2' : c.toNat ≤ 102 := h2
    omega
  · have h2 := h.2
    rw [Char.le_def, UInt32.le_def, BitVec.le_def] at h2
    have h2' : c.toNat ≤ 70 := h2
    omega

theorem utf8_len_go (cs : List Char) :
    ∀ a : Nat, cs.foldl (fun n c => n + c.utf8Size) a = a + utf8_len cs := by
  induction cs with
  | nil => intro a; simp [utf8_len]
  | cons c rest ih =>
    intro a
    simp only [utf8_len, List.foldl_cons]
    rw [ih, ih (0 + c.utf8Size)]
    omega

theorem utf8_len_cons (c : Char) (cs : List Char) :
    utf8_len (c :: cs) = c.utf8Size + utf8_len cs := by
  rw [show utf8_len (c :: cs) =
      cs.foldl (fun n c => n + c.utf8Size) (0 + c.utf8Size) from rfl,
    utf8_len_go]
  omega

theorem all_hex_utf8_len (digits : List Char)
    (h : digits.all isHexDigit = true) : utf8_len digits = digits.length := by
  induction digits with
  | nil => rfl
  | cons c rest ih =>
    simp only [List.all_cons, Bool.and_eq_true] at h
    rw [utf8_len_cons, hexDigit_utf8Size_one c h.1, ih h.2, List.length_cons]
    omega

theorem foldl_hex_lt (digits : List Char) :
    ∀ acc : Nat, digits.all isHexDigit = true →
      digits.foldl (fun acc c => acc * 16 + hexVal c) acc <
        (acc + 1) * 16 ^ digits.length := by
  induction digits with
  | nil => intro acc _; simp
  | cons d ds ih =>
    intro acc h
    simp only [List.all_cons, Bool.and_eq_true] at h
    rw [List.foldl_cons]
    calc ds.foldl (fun acc c => acc * 16 + hexVal c) (acc * 16 + hexVal d)
        < (acc * 16 + hexVal d + 1) * 16 ^ ds.length := ih _ h.2
      _ ≤ ((acc + 1) * 16) * 16 ^ ds.length := by
          have := hexVal_lt_16 d
          have hstep : acc * 16 + hexVal d + 1 ≤ (acc + 1) * 16 := by omega
          exact Nat.mul_le_mul_right _ hstep
      _ = (acc + 1) * 16 ^ (d :: ds).length := by
          rw [List.length_cons, pow_succ]
          ring

theorem strip_plus_cons (c : Char) (rest : List Char) :
    strip_plus (c :: rest) = if c = '+' then rest else c :: rest := by
  by_cases hc : c = '+'
  · subst hc
    simp [strip_plus]
  · unfold strip_plus
    split
    · rename_i heq
      injection heq with h1 _
      exact absurd h1 hc
    · rw [if_neg hc]


theorem u32_isSome_iff_of_len (t : List Char) (h : utf8_len t = 6) :
    (u32_from_str_radix t).isSome = true ↔ accepted_radix16_tail t = true := by
  unfold u32_from_str_radix accepted_radix16_tail
  cases t with
  | nil => simp [strip_plus]
  | cons c rest =>
    rw [strip_plus_cons]
    by_cases hc : c = '+'
    · rw [if_pos hc]
      have hlen : utf8_len rest = 5 := by
        rw [utf8_len_cons] at h
        have : ('+' : Char).utf8Size = 1 := by decide
        subst hc
        omega
      by_cases hall : rest.all isHexDigit = true
      · have hL : rest.length = 5 := by
          rw [all_hex_utf8_len rest hall] at hlen
          exact hlen
        have hne : rest ≠ [] := by
          intro hnil
          rw [hnil] at hL
          simp at hL
        have hbound := foldl_hex_lt rest 0 hall
        rw [hL] at hbound
        simp only [hne, if_neg, hall, if_pos]
        simp [hne, hall]
        omega
      · have hne : rest ≠ [] := by
          intro hnil
          rw [hnil] at hall
          simp at hall
        simp [hne, hall]
    · rw [if_neg hc]
      by_cases hall : (c :: rest).all isHexDigit = true
      · have hL : (c :: rest).length = 6 := by
          rw [all_hex_utf8_len _ hall] at h
          exact h
        have hbound := foldl_hex_lt (c :: rest) 0 hall
        rw [hL] at hbound
        have hb2 : (c :: rest).foldl (fun acc c => acc * 16 + hexVal c) 0 <
            4294967296 := by
          have h16 : (16 : Nat) ^ 6 = 16777216 := by norm_num
          omega
        simp only []
        rw [if_neg (by simp : ¬((c :: rest) = ([] : List Char))), if_pos hall,
          if_pos hb2]
        simp [hall]
      · simp [hall]

/-- The digit emitted by `{:x}` for a value below 16: a hex digit, with the
expected value, distinct from `+`, one byte wide. -/
theorem digitChar_facts (m : Nat) (h : m < 16) :
    isHexDigit (Nat.digitChar m) = true ∧ hexVal (Nat.digitChar m) = m ∧
      Nat.digitChar m ≠ '+' ∧ (Nat.digitChar m).utf8Size = 1 := by
  interval_cases m <;> exact ⟨by decide, by decide, by decide, by decide⟩


theorem fromStr_isSome_iff (s : String) :
    (Color.fromStr s).isSome = true ↔ hex_color_shape s.data = true := by
  unfold Color.fromStr colorFromChars hex_color_shape
  simp only []
  by_cases hp0 : ['0', 'x'].isPrefixOf s.data = true
  · obtain ⟨t, ht⟩ : ∃ t, s.data = '0' :: 'x' :: t := by
      have hp0x : ['0', 'x'] <+: s.data := by
        simpa [ List.isPrefixOf_iff_prefix] using hp0
      obtain ⟨u, hu⟩ := hp0x
      exact ⟨u, hu.symm⟩
    rw [ht]
    by_cases hl : utf8_len ('0' :: 'x' :: t) = 8
    · have hlt : utf8_len t = 6 := by
        rw [utf8_len_cons, utf8_len_cons] at hl
        have h0 : ('0' : Char).utf8Size = 1 := by decide
        have hx : ('x' : Char).utf8Size = 1 := by decide
        omega
      have hiff := u32_isSome_iff_of_len t hlt
      rcases hu : u32_from_str_radix t with _ | v
      · rw [hu] at hiff
        simp only [Option.isSome_none, Bool.false_eq_true, false_iff] at hiff
        simp [List.isPrefixOf, hl, hu, hiff]
      · rw [hu] at hiff
        simp only [Option.isSome_some, true_iff] at hiff
        simp [List.isPrefixOf, hl, hu, hiff]
    · simp [List.isPrefixOf, hl]
  · by_cases hps : ['#'].isPrefixOf s.data = true
    · obtain ⟨t, ht⟩ : ∃ t, s.data = '#' :: t := by
        have hpsx : ['#'] <+: s.data := by
          simpa [ List.isPrefixOf_iff_prefix] using hps
        obtain ⟨u, hu⟩ := hpsx
        exact ⟨u, hu.symm⟩
      rw [ht]
      by_cases hl : utf8_len ('#' :: t) = 7
      · have hlt : utf8_len t = 6 := by
          rw [utf8_len_cons] at hl
          have hsharp : ('#' : Char).utf8Size = 1 := by decide
          omega
        have hiff := u32_isSome_iff_of_len t hlt
        rcases hu : u32_from_str_radix t with _ | v
        · rw [hu] at hiff
          simp only [Option.isSome_none, Bool.false_eq_true, false_iff] at hiff
          simp [List.isPrefixOf, hl, hu, hiff]
        · rw [hu] at hiff
          simp only [Option.isSome_some, true_iff] at hiff
          simp [List.isPrefixOf, hl, hu, hiff]
      · simp [List.isPrefixOf, hl]
    · simp [hp0, hps]

set_option maxHeartbeats 1000000 in
/-- Round trip: parsing the rendered form of a color with in-range channels
returns the color. -/
theorem color_roundtrip (c : Color) (hr : c.r < 256) (hg : c.g < 256)
    (hb : c.b < 256) : Color.fromStr (Color.toString c) = some c := by
  obtain ⟨r, g, b⟩ := c
  simp only at hr hg hb
  obtain ⟨d1hex, d1val, d1plus, d1size⟩ := digitChar_facts (r / 16) (by omega)
  obtain ⟨d2hex, d2val, _, d2size⟩ := digitChar_facts (r % 16) (by omega)
  obtain ⟨d3hex, d3val, _, d3size⟩ := digitChar_facts (g / 16) (by omega)
  obtain ⟨d4hex, d4val, _, d4size⟩ := digitChar_facts (g % 16) (by omega)
  obtain ⟨d5hex, d5val, _, d5size⟩ := digitChar_facts (b / 16) (by omega)
  obtain ⟨d6hex, d6val, _, d6size⟩ := digitChar_facts (b % 16) (by omega)
  unfold Color.fromStr Color.toString colorFromChars u8Hex
  simp only [List.cons_append, List.nil_append]
  have hlen : utf8_len ('#' :: Nat.digitChar (r / 16) :: Nat.digitChar (r % 16)
      :: Nat.digitChar (g / 16) :: Nat.digitChar (g % 16)
      :: Nat.digitChar (b / 16) :: [Nat.digitChar (b % 16)]) = 7 := by
    rw [utf8_len_cons, utf8_len_cons, utf8_len_cons, utf8_len_cons,
      utf8_len_cons, utf8_len_cons, utf8_len_cons]
    have hsharp : ('#' : Char).utf8Size = 1 := by decide
    rw [hsharp, d1size, d2size, d3size, d4size, d5size, d6size]
    rfl
  rw [if_neg (by simp [List.isPrefixOf]), if_pos (by simp [List.isPrefixOf, hlen])]
  simp only [List.drop_succ_cons, List.drop_zero]
  unfold u32_from_str_radix
  rw [strip_plus_cons, if_neg d1plus]
  rw [if_neg (by simp), if_pos (by simp [d1hex, d2hex, d3hex, d4hex, d5hex, d6hex])]
  simp only [List.foldl_cons, List.foldl_nil, d1val, d2val, d3val, d4val, d5val,
    d6val]
  have hv : ((((((0 * 16 + r / 16) * 16 + r % 16) * 16 + g / 16) * 16 + g % 16)
      * 16 + b / 16) * 16 + b % 16) = r * 65536 + g * 256 + b := by omega
  rw [hv, if_pos (by omega)]
  simp only [Option.some.injEq, Color.mk.injEq]
  refine ⟨?_, ?_, ?_⟩ <;> omega

/-! ## Success-preservation of `current_file`

`for_each_file` rebinds `current_file` per matched entry and never restores
it; every other construct either leaves it alone or (for includes) restores
it on success.  `cf_safe` marks the items whose rendering cannot leak a
`current_file` rebinding on success: everything except a pattern-mode
`ForEach` outside an `Include` (an `Include` is safe regardless of its
target because it restores on success). -/


theorem run_ok_cf (env : BuilderEnv) :
    ∀ (fuel : Nat) (call : Call) (st : BuilderState) (out : String)
      (st' : BuilderState),
      cf_safe_call call = true →
      run env fuel call st = (.ok out, st') →
      st'.current_file = st.current_file := by
  intro fuel
  induction fuel with
  | zero =>
    intro call st out st' _ h
    rw [run_fuel_zero] at h
    simp at h
  | succ n ih =>
    intro call st out st' hsafe h
    cases call with
    | constructByName name => simp [cf_safe_call] at hsafe
    | constructBlock item =>
      cases item with
      | Include name =>
        rw [run_item_Include] at h
        obtain ⟨o, ho⟩ := withNl_eq_ok _ _ _ h
        exact ih _ _ _ _ (by rfl) ho
      | IncludeVerbose path params =>
        rw [run_item_IncludeVerbose] at h
        obtain ⟨o, ho⟩ := withNl_eq_ok _ _ _ h
        split at ho
        · rename_i s st₂ heq
          simp only [Prod.mk.injEq, Except.ok.injEq] at ho
          rw [← ho.2]
          exact ih _ _ _ _ (by rfl) heq
        · simp at ho
      | Title t =>
        rw [run_item_Title] at h
        simp only [Prod.mk.injEq, Except.ok.injEq] at h
        rw [← h.2]
      | Block style html_type items =>
        rw [run_item_Block] at h
        obtain ⟨o, ho⟩ := withNl_eq_ok _ _ _ h
        exact ih _ _ _ _ (by simpa [cf_safe_call, cf_safe] using hsafe) ho
      | Markdown md_file =>
        rw [run_item_Markdown] at h
        simp only [Prod.mk.injEq, Except.ok.injEq] at h
        rw [← h.2]
      | Code code_file =>
        rw [run_item_Code] at h
        simp only [Prod.mk.injEq, Except.ok.injEq] at h
        rw [← h.2]
      | Image path alt =>
        rw [run_item_Image] at h
        simp only [Prod.mk.injEq, Except.ok.injEq] at h
        rw [← h.2]
      | Text raw =>
        rw [run_item_Text] at h
        simp only [Prod.mk.injEq, Except.ok.injEq] at h
        rw [← h.2]
      | Link t url link_style =>
        rw [run_item_Link] at h
        simp only [Prod.mk.injEq, Except.ok.injEq] at h
        rw [← h.2]
        exact (link_preserves st _ url link_style).2.1
      | Br =>
        rw [run_item_Br] at h
        simp only [Prod.mk.injEq, Except.ok.injEq] at h
        rw [← h.2]
      | ForEach pattern values items =>
        have hsafe' : pattern.isNone = true ∧ cf_safe_list items = true := by
          simpa [cf_safe_call, cf_safe] using hsafe
        cases pattern with
        | some p => simp at hsafe'
        | none =>
          rw [run_item_ForEach] at h
          obtain ⟨o, ho⟩ := withNl_eq_ok _ _ _ h
          simp only [Option.isSome_none, Bool.and_false, Bool.false_eq_true,
            if_false, ite_false] at ho
          split at ho
          · simp at ho
          · rename_i out1 st1 heq1
            simp only [Prod.mk.injEq, Except.ok.injEq] at ho
            rw [← ho.2]
            split at heq1
            · rename_i what
              exact ih _ _ _ _ (by simpa [cf_safe_call] using hsafe'.2) heq1
            · simp only [Prod.mk.injEq, Except.ok.injEq] at heq1
              rw [← heq1.2]
      | LoopValue =>
        rw [run_item_LoopValue] at h
        simp only [Prod.mk.injEq, Except.ok.injEq] at h
        rw [← h.2]
      | LoopValueFileName =>
        rw [run_item_LoopValueFileName] at h
        simp only [Prod.mk.injEq, Except.ok.injEq] at h
        rw [← h.2]
      | Html head body =>
        rw [run_item_Html] at h
        obtain ⟨o, ho⟩ := withNl_eq_ok _ _ _ h
        refine ih _ _ _ _ ?_ ho
        cases body with
        | none => simp [cf_safe_call]
        | some items =>
          have h1 : cf_safe_list items = true := by
            simpa [cf_safe_call, cf_safe] using hsafe
          simpa [cf_safe_call] using h1
    | constructItems items =>
      cases items with
      | nil =>
        rw [run_constructItems_nil] at h
        simp only [Prod.mk.injEq, Except.ok.injEq] at h
        rw [← h.2]
      | cons item rest =>
        have hsafe' : cf_safe item = true ∧ cf_safe_list rest = true := by
          simpa [cf_safe_call, cf_safe_list] using hsafe
        rw [run_constructItems_cons] at h
        split at h
        · rename_i s stm heq1
          split at h
          · rename_i s2 st₂ heq2
            simp only [Prod.mk.injEq, Except.ok.injEq] at h
            rw [← h.2, ih _ _ _ _ (by simpa [cf_safe_call] using hsafe'.2) heq2,
              ih _ _ _ _ (by simpa [cf_safe_call] using hsafe'.1) heq1]
          · simp at h
        · simp at h
    | includeCall name =>
      rw [run_includeCall] at h
      split at h
      · split at h
        · simp only [Prod.mk.injEq, Except.ok.injEq] at h
          rw [← h.2]
        · simp at h
      · simp at h
    | includeVerboseCall name params =>
      rw [run_includeVerboseCall] at h
      split at h
      · split at h
        · simp only [Prod.mk.injEq, Except.ok.injEq] at h
          rw [← h.2]
        · simp at h
      · simp at h
    | blockCall style html_type items =>
      rw [run_blockCall] at h
      split at h <;> split at h <;> split at h <;>
        first
        | (rename_i body st₂ heq
           have hcf := ih _ _ _ _ (by simpa [cf_safe_call] using hsafe) heq
           simp only [Prod.mk.injEq, Except.ok.injEq] at h
           rw [← h.2]
           simpa using hcf)
        | simp at h
    | htmlCall head body =>
      rw [run_htmlCall] at h
      simp only [] at h
      split at h
      · rename_i bodyOut st₂ heq
        have hcf : st₂.current_file = st.current_file := by
          split at heq
          · simpa using ih _ _ _ _ (by simpa [cf_safe_call] using hsafe) heq
          · simp only [Prod.mk.injEq, Except.ok.injEq] at heq
            rw [← heq.2]
        simp only [Prod.mk.injEq, Except.ok.injEq] at h
        rw [← h.2]
        simpa using hcf
      · simp at h
    | forEachCall values items =>
      cases values with
      | nil =>
        rw [run_forEachCall_nil] at h
        simp only [Prod.mk.injEq, Except.ok.injEq] at h
        rw [← h.2]
      | cons value rest =>
        rw [run_forEachCall_cons] at h
        split at h
        · rename_i s stm heq1
          split at h
          · rename_i s2 st₂ heq2
            simp only [Prod.mk.injEq, Except.ok.injEq] at h
            rw [← h.2, ih _ _ _ _ (by simpa [cf_safe_call] using hsafe) heq2]
            simpa using ih _ _ _ _ (by simpa [cf_safe_call] using hsafe) heq1
          · simp at h
        · simp at h
    | forEachFileCall pattern items => simp [cf_safe_call] at hsafe
    | forEachEntries entries items => simp [cf_safe_call] at hsafe

/-- After a successful pass of the `for_each_file` entry loop over a
non-empty entry list with a `cf_safe` body, `current_file` is the file name
of the last entry. -/
theorem forEachEntries_last_cf (env : BuilderEnv) (items : List BlockItem)
    (e : String) (hsafe : cf_safe_list items = true) :
    ∀ (entries : List String) (fuel : Nat) (st : BuilderState) (out : String)
      (st' : BuilderState),
      entries.getLast? = some e →
      run env fuel (.forEachEntries entries items) st = (.ok out, st') →
      st'.current_file = (pathFileName e).getD "" := by
  intro entries
  induction entries with
  | nil =>
    intro fuel st out st' hlast _
    simp at hlast
  | cons entry rest ih =>
    intro fuel st out st' hlast h
    match fuel with
    | 0 =>
      rw [run_fuel_zero] at h
      simp at h
    | n + 1 =>
      rw [run_forEachEntries_cons] at h
      split at h
      · rename_i s stm heq1
        split at h
        · rename_i s2 st₂ heq2
          simp only [Prod.mk.injEq, Except.ok.injEq] at h
          rw [← h.2]
          cases rest with
          | nil =>
            match n, heq2 with
            | 0, heq2 =>
              rw [run_fuel_zero] at heq2
              simp at heq2
            | m + 1, heq2 =>
              rw [run_forEachEntries_nil] at heq2
              simp only [Prod.mk.injEq, Except.ok.injEq] at heq2
              rw [← heq2.2]
              have hcf := run_ok_cf env _ (.constructItems items) _ _ _
                (by simpa [cf_safe_call] using hsafe) heq1
              simp only [List.getLast?_singleton, Option.some.injEq] at hlast
              rw [hcf, ← hlast]
          | cons r rs =>
            rw [List.getLast?_cons_cons] at hlast
            exact ih n _ _ _ hlast heq2
        · simp at h
      · simp at h

/-! ## Claim C10 -/

/-- Counterexample to claim C10: a pattern-mode `ForEach` whose body itself
contains a pattern-mode `ForEach` completes with `current_file` bound to the
inner loop's last file name (`b.txt`), not the file name of the outer loop's
last matched entry (`a.txt`). -/
theorem C10_counterexample :
    construct_block envGlob 10
        (.ForEach (some "p1") none [.ForEach (some "p2") none []]) st0 =
      (.ok "\n\n",
       { st0 with current_file := "b.txt", current_loop_value := "b.txt" }) ∧
    (envGlob.glob ("in" ++ "/" ++ "p1")).getLast? = some "x/a.txt" ∧
    (pathFileName "x/a.txt").getD "" = "a.txt" ∧
    ("b.txt" : String) ≠ "a.txt" := by
  exact ⟨by decide, by decide, by decide, by decide⟩

/-- Claim C10, amended: for bodies that contain no pattern-mode `ForEach`
outside an `Include` (`cf_safe`), a pattern-mode `ForEach` with at least one
matching entry that completes successfully leaves `current_file` bound to
the file name of the last matched entry — it is not restored — whereas a
values-mode `ForEach` leaves `current_file` unchanged. -/
theorem C10_foreach_current_file :
    (∀ (env : BuilderEnv) (fuel : Nat) (p : String) (items : List BlockItem)
        (st : BuilderState) (out : String) (st' : BuilderState) (e : String),
      cf_safe_list items = true →
      (env.glob (env.input_dir ++ "/" ++ p)).getLast? = some e →
      construct_block env fuel (.ForEach (some p) none items) st = (.ok out, st') →
      st'.current_file = (pathFileName e).getD "") ∧
    (∀ (env : BuilderEnv) (fuel : Nat) (vs : List String)
        (items : List BlockItem) (st : BuilderState) (out : String)
        (st' : BuilderState),
      cf_safe_list items = true →
      construct_block env fuel (.ForEach none (some vs) items) st = (.ok out, st') →
      st'.current_file = st.current_file) := by
  constructor
  · intro env fuel p items st out st' e hsafe hlast h
    match fuel, h with
    | 0, h =>
      rw [construct_block, run_fuel_zero] at h
      simp at h
    | n + 1, h =>
      rw [construct_block, run_item_ForEach] at h
      obtain ⟨o, ho⟩ := withNl_eq_ok _ _ _ h
      rw [if_neg (show ¬(((none : Option (List String)).isSome &&
          (some p).isSome) = true) from fun hc => Bool.false_ne_true hc)] at ho
      simp only [] at ho
      split at ho
      · rename_i out2 st2 heq2
        simp only [Prod.mk.injEq, Except.ok.injEq] at ho
        rw [← ho.2]
        match n, heq2 with
        | 0, heq2 =>
          rw [run_fuel_zero] at heq2
          simp at heq2
        | m + 1, heq2 =>
          rw [run_forEachFileCall] at heq2
          exact forEachEntries_last_cf env items e hsafe _ _ _ _ _ hlast heq2
      · simp at ho
  · intro env fuel vs items st out st' hsafe h
    refine run_ok_cf env fuel (.constructBlock (.ForEach none (some vs) items))
      st out st' ?_ h
    simpa [cf_safe_call, cf_safe] using hsafe

/-- Witness for C10: a pattern-mode loop over one matched file with body
`[LoopValue]`, and a values-mode loop from a state with a set
`current_file`. -/
theorem C10_foreach_current_file_witness :
    (({ st0 with current_file := "b.txt", current_loop_value := "b.txt" } :
        BuilderState).current_file = (pathFileName "y/b.txt").getD "") ∧
    (({ st0 with current_file := "f", current_loop_value := "v" } :
        BuilderState).current_file =
      ({ st0 with current_file := "f" } : BuilderState).current_file) := by
  have h1 : construct_block envGlob 6 (.ForEach (some "p2") none [.LoopValue])
      st0 =
      (.ok "b.txt\n\n",
       { st0 with current_file := "b.txt", current_loop_value := "b.txt" }) := by
    decide
  have h2 : construct_block envGlob 6 (.ForEach none (some ["v"]) [.LoopValue])
      { st0 with current_file := "f" } =
      (.ok "v\n\n",
       { st0 with current_file := "f", current_loop_value := "v" }) := by
    decide
  exact ⟨C10_foreach_current_file.1 envGlob 6 "p2" [.LoopValue] st0 "b.txt\n\n"
      _ "y/b.txt" (by decide) (by decide) h1,
    C10_foreach_current_file.2 envGlob 6 ["v"] [.LoopValue]
      { st0 with current_file := "f" } "v\n\n" _ (by decide) h2⟩

/-! ## Claim C9 -/


/-- Counterexample to claim C9: `u32::from_str_radix` accepts an optional
leading `+`, so `Color::from_str` succeeds on `#+12345` — a string that is
not `#` (or `0x`) followed by six hex digits. -/
theorem C9_counterexample :
    Color.fromStr "#+12345" = some ⟨1, 35, 69⟩ ∧
    claimed_hex_form "#+12345".data = false := by
  exact ⟨by decide, by decide⟩

/-- Claim C9, amended: the textual form of a color is lowercase `#rrggbb`
(the definition of `Color.toString`) and parsing it returns the color, for
every color with 8-bit channels; parsing succeeds exactly on strings of the
form `#` followed by six bytes or `0x` followed by six bytes whose content
is an optional leading `+` sign followed by hexadecimal digits, and fails on
every other string. -/
theorem C9_color_parse :
    (∀ c : Color, c.r < 256 → c.g < 256 → c.b < 256 →
      Color.fromStr (Color.toString c) = some c) ∧
    (∀ s : String,
      (Color.fromStr s).isSome = true ↔ hex_color_shape s.data = true) :=
  ⟨color_roundtrip, fromStr_isSome_iff⟩

/-- Witness for C9 at a concrete color and a concrete parse. -/
theorem C9_color_parse_witness :
    Color.fromStr (Color.toString ⟨18, 52, 86⟩) = some ⟨18, 52, 86⟩ ∧
    ((Color.fromStr "#123456").isSome = true ↔
      hex_color_shape "#123456".data = true) :=
  ⟨C9_color_parse.1 ⟨18, 52, 86⟩ (by decide) (by decide) (by decide),
   C9_color_parse.2 "#123456"⟩

/-! ## Claim C1 -/


/-- Counterexample to claim C1: two `Explicit` links with identical
`(color.normal, underline)` but different hover colors generate the same
class name yet different `:hover` declaration sets, so re-inserting under
the same class key overwrites with different data — the declarations are
not a pure function of `(color.normal, underline)`. -/
theorem C1_counterexample :
    lcBlack.normal = lcBlackRed.normal ∧
    link_class lcBlack false = link_class lcBlackRed false ∧
    mapLookup (link st0 "t" "u" (.Explicit false lcBlack none)).2.generated_styles
        "link-000000-none:hover" ≠
      mapLookup (link st0 "t" "u" (.Explicit false lcBlackRed none)).2.generated_styles
        "link-000000-none:hover" := by
  exact ⟨by decide, by decide, by decide⟩

/-- Claim C1, amended: the generated class name is a pure function of
`(color.normal, underline)`, and after any `Explicit` link render — from any
prior state, hence regardless of how many times or in what order links are
rendered — the data stored under the four generated keys is exactly the
declaration set determined by the full `(underline, color, visited_color)`
payload (the `:hover`/`:active` sets additionally depend on `color.hover`,
and `:visited` on `visited_color`); re-inserting under the same key
therefore overwrites with equal data only when those fields also agree. -/
theorem C1_link_styles :
    (∀ (st : BuilderState) (t url : String) (underline : Bool)
        (color : LinkColor) (visited_color : Option LinkColor),
      mapLookup (link st t url (.Explicit underline color visited_color)).2.generated_styles
          (link_class color underline ++ ":link") =
        some (link_normal_style underline color) ∧
      mapLookup (link st t url (.Explicit underline color visited_color)).2.generated_styles
          (link_class color underline ++ ":visited") =
        some (link_visited_style underline color visited_color) ∧
      mapLookup (link st t url (.Explicit underline color visited_color)).2.generated_styles
          (link_class color underline ++ ":hover") =
        some (link_hover_style color) ∧
      mapLookup (link st t url (.Explicit underline color visited_color)).2.generated_styles
          (link_class color underline ++ ":active") =
        some (link_hover_style color)) ∧
    (∀ (c c' : LinkColor) (underline : Bool), c.normal = c'.normal →
      link_class c underline = link_class c' underline) := by
  constructor
  · intro st t url underline color visited_color
    simp only [link]
    refine ⟨?_, ?_, ?_, ?_⟩
    · rw [mapLookup_mapInsert_ne _ _ _ _
          (string_append_right_ne _ ":link" ":active" (by decide)),
        mapLookup_mapInsert_ne _ _ _ _
          (string_append_right_ne _ ":link" ":hover" (by decide)),
        mapLookup_mapInsert_ne _ _ _ _
          (string_append_right_ne _ ":link" ":visited" (by decide)),
        mapLookup_mapInsert_self]
    · rw [mapLookup_mapInsert_ne _ _ _ _
          (string_append_right_ne _ ":visited" ":active" (by decide)),
        mapLookup_mapInsert_ne _ _ _ _
          (string_append_right_ne _ ":visited" ":hover" (by decide)),
        mapLookup_mapInsert_self]
    · rw [mapLookup_mapInsert_ne _ _ _ _
          (string_append_right_ne _ ":hover" ":active" (by decide)),
        mapLookup_mapInsert_self]
    · rw [mapLookup_mapInsert_self]
  · intro c c' underline h
    rw [link_class, link_class, h]

/-- Witness for C1: the `:hover` lookup at a concrete link render, and the
class-name purity applied to two colors agreeing on `normal`. -/
theorem C1_link_styles_witness :
    mapLookup (link st0 "t" "u" (.Explicit false lcBlack none)).2.generated_styles
        (link_class lcBlack false ++ ":hover") = some (link_hover_style lcBlack) ∧
    link_class lcBlack false = link_class lcBlackRed false :=
  ⟨(C1_link_styles.1 st0 "t" "u" false lcBlack none).2.2.1,
   C1_link_styles.2 lcBlack lcBlackRed false (by decide)⟩

/-! ## Claim C4 -/

/-- Counterexample to claim C4: rendering the `ForEach` item itself
(`construct_block`) appends the uniform trailing newline after the loop
output, producing `"a\nb\n\n"`, not exactly `"a\nb\n"`. -/
theorem C4_counterexample :
    (construct_block env0 5 (.ForEach none (some ["a", "b"]) [.LoopValue]) st0).1 =
      .ok "a\nb\n\n" ∧
    (construct_block env0 5 (.ForEach none (some ["a", "b"]) [.LoopValue]) st0).1 ≠
      .ok "a\nb\n" := by
  exact ⟨by decide, by decide⟩

/-- Claim C4, amended: at indent level zero the iteration pass `for_each`
over `values: ["a","b"]` with body `[LoopValue]` produces exactly
`"a\nb\n"` — one line per value, in input order — leaving
`current_loop_value` bound to `"b"`; the enclosing `construct_block` call
then appends the uniform trailing newline, so rendering the `ForEach` item
yields `"a\nb\n\n"`. -/
theorem C4_foreach_values (env : BuilderEnv) (fuel : Nat) (st : BuilderState)
    (h : st.indent_level = 0) :
    for_each env (fuel + 1 + 1 + 1 + 1) ["a", "b"] [.LoopValue] st =
      (.ok "a\nb\n", { st with current_loop_value := "b" }) ∧
    construct_block env (fuel + 1 + 1 + 1 + 1 + 1)
        (.ForEach none (some ["a", "b"]) [.LoopValue]) st =
      (.ok "a\nb\n\n", { st with current_loop_value := "b" }) := by
  obtain ⟨i, cf, clv, gs⟩ := st
  simp only at h
  subst h
  exact ⟨rfl, rfl⟩

/-- Witness for C4 at the initial state. -/
theorem C4_foreach_values_witness :
    for_each env0 4 ["a", "b"] [.LoopValue] st0 =
      (.ok "a\nb\n", { st0 with current_loop_value := "b" }) ∧
    construct_block env0 5 (.ForEach none (some ["a", "b"]) [.LoopValue]) st0 =
      (.ok "a\nb\n\n", { st0 with current_loop_value := "b" }) :=
  C4_foreach_values env0 0 st0 (by decide)

/-! ## Claim C7 -/


/-- Counterexample to claim C7: the string `\$loop_value` contains no
placeholder occurrence satisfying the boundary rule (the only occurrence is
preceded by a backslash), yet substitution does not return it unchanged —
the escape pass strips the backslash. -/
theorem C7_counterexample :
    has_boundary_placeholder "\\$loop_value" = false ∧
    process_special_values { st0 with current_loop_value := "v" }
        "\\$loop_value" ≠ "\\$loop_value" := by
  exact ⟨by decide, by decide⟩

/-- Claim C7, amended: substitution applied to any string containing no
occurrence of the text `$loop_value` at all (which rules out both
placeholders, escaped or not) returns it unchanged, for every current loop
value; and applied to the escaped form `\$loop_value` it yields the literal
`$loop_value` with the backslash stripped and no substitution performed,
for every current loop value. -/
theorem C7_substitution :
    (∀ (st : BuilderState) (s : String),
      containsSeq "$loop_value".data s.data = false →
      process_special_values st s = s) ∧
    (∀ st : BuilderState,
      process_special_values st "\\$loop_value" = "$loop_value") :=
  ⟨process_special_values_id, fun _ => rfl⟩

/-- Witness for C7 at a concrete placeholder-free string and the escaped
form. -/
theorem C7_substitution_witness :
    process_special_values st0 "hello world" = "hello world" ∧
    process_special_values st0 "\\$loop_value" = "$loop_value" :=
  ⟨C7_substitution.1 st0 "hello world" (by decide), C7_substitution.2 st0⟩

/-! ## Claim C8 -/


/-- Counterexample to claim C8: the skeleton for `Html{head: None, body:
None}` has eight output lines (nine newline characters including the
trailing blank line), not five. -/
theorem C8_counterexample :
    construct_block env0 2 (.Html none none) st0 =
      (.ok (html_skeleton "    "), st0) ∧
    (html_skeleton "    ").data.count '\n' = 9 ∧
    (html_skeleton "    ").data.count '\n' ≠ 5 := by
  exact ⟨by decide, by decide, by decide⟩

/-- Claim C8, amended: rendering `Html{head: None, body: None}` from indent
level zero produces the fixed eight-line skeleton (doctype, html open, head
open, charset meta, head close, body open, body close, html close — the
head element with only the UTF-8 charset meta tag and an empty body) plus
the uniform trailing newline, and the final state is unchanged; in
particular `indent_level` is exactly zero again at the end of the call. -/
theorem C8_html_skeleton (env : BuilderEnv) (fuel : Nat) (st : BuilderState)
    (h : st.indent_level = 0) :
    construct_block env (fuel + 1 + 1) (.Html none none) st =
      (.ok (html_skeleton env.indent_string), st) := by
  obtain ⟨i, cf, clv, gs⟩ := st
  simp only at h
  subst h
  have step : construct_block env (fuel + 1 + 1) (.Html none none)
      ⟨0, cf, clv, gs⟩ =
      withNl (run env (fuel + 1) (.htmlCall none none) ⟨0, cf, clv, gs⟩) := rfl
  rw [step, run_htmlCall]
  simp only [withNl, Prod.mk.injEq, Except.ok.injEq]
  refine ⟨?_, trivial⟩
  apply String.ext
  simp [html_skeleton, get_indent, String.join, String.data_append]

/-- Witness for C8 at the initial state. -/
theorem C8_html_skeleton_witness :
    construct_block env0 2 (.Html none none) st0 =
      (.ok (html_skeleton "    "), st0) :=
  C8_html_skeleton env0 0 st0 (by decide)

/-! ## Claim C2 -/

/-- Counterexample to claim C2: a `Block` whose only child is an `Include`
of a missing name fails, and the error exit leaves `indent_level` at `1`
instead of restoring the pre-call value `0` — the decrement after the child
loop is skipped by the `?` early return. -/
theorem C2_counterexample :
    construct_block env0 5 (.Block none none [.Include "missing"]) st0 =
      (.error (.notFound "Block missing not found"),
       { indent_level := 1, current_file := "", current_loop_value := "",
         generated_styles := [] }) ∧
    (1 : Nat) ≠ st0.indent_level := by
  exact ⟨by decide, by decide⟩

/-- Claim C2, amended: for every `BlockItem` whose render call returns
successfully, `indent_level` is exactly its pre-call value again; on error
exits the increment done by `Block` (and `Html`) before descending into
children can leak, leaving `indent_level` above its pre-call value (see the
counterexample). -/
theorem C2_indent_restored (env : BuilderEnv) (fuel : Nat) (item : BlockItem)
    (st : BuilderState) (out : String) (st' : BuilderState)
    (h : construct_block env fuel item st = (.ok out, st')) :
    st'.indent_level = st.indent_level :=
  run_ok_indent env fuel (.constructBlock item) st out st' h

/-- Witness for C2 at a successful render. -/
theorem C2_indent_restored_witness :
    construct_block env0 1 .Br st0 = (.ok "<br />\n", st0) ∧
    st0.indent_level = st0.indent_level :=
  ⟨by decide, C2_indent_restored env0 1 .Br st0 "<br />\n" st0 (by decide)⟩

end Blockblog
